import Mathlib

/-!
Verification development for the KeyFlow key-pool core.

The Go sources under `internal/keypool` and `internal/services` are shallowly
embedded below.  Go strings are modelled as `List Char`; machine ints as `Int`
(no arithmetic in the embedded code ever approaches 2^63, so wrap-around is not
modelled); the hot cache (store) and the relational database are explicit state
components; fallible operations return `Option`.  SHA-256 is kept abstract: it
enters every statement as a universally quantified function `sha` (the theorems
never depend on the digest's value, only on its length), so both the code-side
and the spec-side pipelines use the same abstract digest.
-/

/-- Whitespace test used by Go's `strings.TrimSpace` (restricted to the ASCII
whitespace characters; the repository's key texts contain only ASCII). -/
def isGoSpace (c : Char) : Bool :=
  c = ' ' || c = '\t' || c = '\n' || c = '\x0b' || c = '\x0c' || c = '\r'

/-- Left half of `strings.TrimSpace`. -/
def trimLeftChars (l : List Char) : List Char := l.dropWhile isGoSpace

/-- Right half of `strings.TrimSpace`. -/
def trimRightChars (l : List Char) : List Char :=
  (l.reverse.dropWhile isGoSpace).reverse

/-- Embedding of Go's `strings.TrimSpace` on the character-list model of
strings: drop whitespace from both ends. -/
def goTrimSpace (l : List Char) : List Char := trimLeftChars (trimRightChars l)

/-- Digit run parser for `goAtoi`. -/
def digitsToNat : List Char → Option Nat
  | [] => none
  | l => l.foldl (fun acc c =>
      match acc with
      | none => none
      | some n => if c.isDigit then some (n * 10 + (c.toNat - '0'.toNat)) else none)
      (some 0)

/-- Embedding of Go's `strconv.Atoi`: optional sign followed by a non-empty
digit run; anything else is an error (`none`).  The repository only feeds it
small weight strings, so int64 overflow is not modelled. -/
def goAtoi (s : List Char) : Option Int :=
  match s with
  | [] => none
  | '+' :: rest => (digitsToNat rest).map (fun n => (n : Int))
  | '-' :: rest => (digitsToNat rest).map (fun n => -(n : Int))
  | _ => (digitsToNat s).map (fun n => (n : Int))

/-- One hexadecimal digit. -/
def hexDigit (n : Nat) : Char :=
  if n < 10 then Char.ofNat ('0'.toNat + n) else Char.ofNat ('a'.toNat + (n - 10))

/-- Embedding of `hex.EncodeToString`: two lowercase hex digits per byte. -/
def hexEncode : List Nat → List Char
  | [] => []
  | b :: rest => hexDigit (b / 16 % 16) :: hexDigit (b % 16) :: hexEncode rest

/-- Decimal rendering of an integer (used by the JSON serializer). -/
def intToChars (n : Int) : List Char :=
  if n < 0 then '-' :: Nat.toDigits 10 n.natAbs else Nat.toDigits 10 n.toNat

/-- Byte-wise `<` on strings, as Go compares map keys when `json.Marshal`
sorts an object (the repository's JSON keys are ASCII, where byte order and
scalar order agree). -/
def charListLe (a b : List Char) : Bool :=
  match a, b with
  | [], _ => true
  | _ :: _, [] => false
  | x :: xs, y :: ys =>
    if x.toNat < y.toNat then true
    else if y.toNat < x.toNat then false
    else charListLe xs ys

/-- JSON values, the model of `json.RawMessage` contents.  Numbers are carried
as integers: the embedded code never re-renders a number it did not itself
write, except through `json.Marshal` of untouched sub-terms, where any faithful
rendering works the same on both sides of every statement. -/
inductive Json where
  | null
  | bool (b : Bool)
  | num (n : Int)
  | str (s : List Char)
  | arr (xs : List Json)
  | obj (fields : List (List Char × Json))
deriving Repr

/-- JSON string escaping as Go's encoder performs it (HTML escaping on, the
default used by `json.Marshal`). -/
def escapeChar (c : Char) : List Char :=
  if c = '"' then ['\\', '"']
  else if c = '\\' then ['\\', '\\']
  else if c = '\n' then ['\\', 'n']
  else if c = '\r' then ['\\', 'r']
  else if c = '\t' then ['\\', 't']
  else if c.toNat < 32 then
    ['\\', 'u', '0', '0', hexDigit (c.toNat / 16), hexDigit (c.toNat % 16)]
  else if c = '<' then ['\\', 'u', '0', '0', '3', 'c']
  else if c = '>' then ['\\', 'u', '0', '0', '3', 'e']
  else if c = '&' then ['\\', 'u', '0', '0', '2', '6']
  else [c]

def escapeChars (s : List Char) : List Char := (s.map escapeChar).flatten

mutual

/-- Compact JSON serialization, the model of `json.Marshal` output (object
fields are rendered in the order they are listed; the unmarshal step below
sorts them, matching Go's sorted map rendering). -/
def Json.render : Json → List Char
  | .null => "null".data
  | .bool true => "true".data
  | .bool false => "false".data
  | .num n => intToChars n
  | .str s => '"' :: (escapeChars s ++ ['"'])
  | .arr xs => '[' :: (Json.renderArr xs ++ [']'])
  | .obj fs => '{' :: (Json.renderObj fs ++ ['}'])

def Json.renderArr : List Json → List Char
  | [] => []
  | [x] => x.render
  | x :: y :: rest => x.render ++ ',' :: Json.renderArr (y :: rest)

def Json.renderObj : List (List Char × Json) → List Char
  | [] => []
  | [(k, v)] => '"' :: (escapeChars k ++ '"' :: ':' :: v.render)
  | (k, v) :: f :: rest =>
    '"' :: (escapeChars k ++ '"' :: ':' :: v.render) ++ ',' :: Json.renderObj (f :: rest)

end

/-- Key used throughout `cache_hit.go`. -/
def ccKey : List Char := "cache_control".data

/-- Field name of a message's content array. -/
def contentKey : List Char := "content".data

/-- Keep only the last occurrence of each key, as decoding a JSON object into a
Go map does. -/
def dedupLastFields : List (List Char × Json) → List (List Char × Json)
  | [] => []
  | (k, v) :: rest =>
    if rest.any (fun p => p.1 == k) then dedupLastFields rest
    else (k, v) :: dedupLastFields rest

/-- Normalisation performed by the round trip through a Go
`map[string]json.RawMessage`: duplicate keys collapse to the last one and
`json.Marshal` emits the keys in sorted order. -/
def goNormFields (fs : List (List Char × Json)) : List (List Char × Json) :=
  (dedupLastFields fs).mergeSort (fun a b => charListLe a.1 b.1)

/-- Last-occurrence field lookup, matching Go's decoding where a later
duplicate key overwrites an earlier one. -/
def lookupField : List (List Char × Json) → List Char → Option Json
  | [], _ => none
  | (k0, v) :: rest, k =>
    match lookupField rest k with
    | some v2 => some v2
    | none => if k0 == k then some v else none

/-- Replace the value stored under a key (the key is present when used). -/
def setFieldVal (fs : List (List Char × Json)) (k : List Char) (v : Json) :
    List (List Char × Json) :=
  fs.map (fun p => if p.1 == k then (p.1, v) else p)

/-- A content block decoded into `map[string]json.RawMessage`: `none` is the
nil map produced by a `null` element (which later re-marshals to `null`). -/
def blockOfJson : Json → Option (Option (List (List Char × Json)))
  | .null => some none
  | .obj fs => some (some (goNormFields fs))
  | _ => none

/-- Decoding `content` into `[]map[string]json.RawMessage`: every element must
be an object (or `null`); a `null` content decodes to the empty nil slice
without error, which behaves identically to an empty array here. -/
def contentBlocksOfJson : Json → Option (List (Option (List (List Char × Json))))
  | .arr xs => xs.mapM blockOfJson
  | .null => some []
  | _ => none

def blockHasCC (b : Option (List (List Char × Json))) : Bool :=
  match b with
  | none => false
  | some fs => fs.any (fun p => p.1 == ccKey)

def blockRemoveCC (b : Option (List (List Char × Json))) :
    Option (List (List Char × Json)) :=
  match b with
  | none => none
  | some fs => some (fs.filter (fun p => !(p.1 == ccKey)))

/-- Re-marshal a decoded content block. -/
def renderBlockMap (b : Option (List (List Char × Json))) : Json :=
  match b with
  | none => Json.null
  | some fs => Json.obj fs

/-- Per-message body of `stripCacheControl` (cache_hit.go): decode the message
into a map (a non-object message is kept verbatim), drop a top-level
`cache_control` key, drop `cache_control` from every decodable content block,
and re-marshal only when something changed. -/
def stripMsg (raw : Json) : Json :=
  match raw with
  | .obj fs0 =>
    let fs := goNormFields fs0
    let hasCC := fs.any (fun p => p.1 == ccKey)
    let fs1 := if hasCC then fs.filter (fun p => !(p.1 == ccKey)) else fs
    match lookupField fs1 contentKey with
    | none => if hasCC then Json.obj fs1 else raw
    | some contentRaw =>
      match contentBlocksOfJson contentRaw with
      | none => if hasCC then Json.obj fs1 else raw
      | some blocks =>
        let cleaned := blocks.any blockHasCC
        if cleaned then
          let newContent := Json.arr (blocks.map fun b =>
            renderBlockMap (if blockHasCC b then blockRemoveCC b else b))
          Json.obj (setFieldVal fs1 contentKey newContent)
        else if hasCC then Json.obj fs1 else raw
  | _ => raw

/-- Embedding of `stripCacheControl` (cache_hit.go, lines 44-101); the Go
function builds a fresh slice, never mutating its input, which the embedding
reflects by being a pure function. -/
def stripCacheControl (messages : List Json) : List Json :=
  messages.map stripMsg

/-- Embedding of `CalculatePromptHash` (cache_hit.go, lines 29-41).  `sha` is
the abstract SHA-256; the code hex-encodes the first 16 digest bytes.
`json.Marshal` of a slice of valid raw messages cannot fail, so its error
branch is unreachable in the model. -/
def CalculatePromptHash (sha : List Char → List Nat) (messages : List Json)
    (dropCount : Nat) : List Char :=
  if dropCount ≥ messages.length ∨ messages.length - dropCount < 1 then []
  else
    let truncated := messages.take (messages.length - dropCount)
    let cleaned := stripCacheControl truncated
    let data := Json.render (Json.arr cleaned)
    hexEncode ((sha data).take 16)

/-- Embedding of `ExtractMessages` (cache_hit.go, lines 104-113).  The request
body is `none` when the bytes are not valid JSON.  A decode error yields
`(nil, 0)`; a missing or null `messages` field leaves the slice nil, and
`json.Marshal(nil)` is the 4-byte `null`. -/
def ExtractMessages (body : Option Json) : List Json × Nat :=
  match body with
  | none => ([], 0)
  | some (.obj fs) =>
    match lookupField fs "messages".data with
    | some (.arr xs) => (xs, (Json.render (Json.arr xs)).length)
    | some .null => ([], 4)
    | some _ => ([], 0)
    | none => ([], 4)
  | some .null => ([], 4)
  | some _ => ([], 0)

/-- Per-key hash `key:{id}` held in the store (provider.go `apiKeyToMap`).
Numeric fields are `Option Int`: `none` is a missing field, whose string read
makes `strconv.Atoi` fail and yield 0, exactly as an empty lookup does in Go.
The hash also carries `id`, `key_string`, `group_id` and `created_at`, which no
claim inspects and which are omitted from the model. -/
structure StoreKeyHash where
  status : String
  base_weight : Option Int
  weight : Option Int
  failure_count : Option Int
deriving Repr, DecidableEq

/-- Cache-hit entry (`CacheHitEntry` in cache_hit.go): the JSON round trip
through `store.Get`/`json.Marshal` is lossless and elided. -/
structure CacheHitEntry where
  keyID : Nat
  expTime : Int
deriving Repr, DecidableEq

/-- A row of the `api_keys` table (the subset of `models.APIKey` columns the
claims touch).  `models` is not part of the sources; the columns mirror the
fields the code reads and writes through gorm. -/
structure DBKey where
  group_id : Nat
  key_hash : List Char
  status : String
  base_weight : Int
  weight : Int
  failure_count : Int
deriving Repr, DecidableEq

/-- The combined durable + hot state the key-pool provider manipulates.
`db` is the relational table keyed by id; `keyHashes` the per-key store
hashes; `activeKeys` the per-group `group:{g}:active_keys` list (an absent
list and an empty list are indistinguishable to `LLen`); `cacheHit` both the
`cache_hit:group:{g}:hash:{h}` store entries and the in-process bookkeeping
map, which the provider keeps in lockstep (every `Set` also records, every
`Delete` also unrecords). -/
structure SysState where
  db : List (Nat × DBKey)
  keyHashes : Nat → Option StoreKeyHash
  activeKeys : Nat → List Nat
  cacheHit : List ((Nat × List Char) × CacheHitEntry)

/-- First row with the given id (`tx.First(&key, id)`). -/
def dbLookup (db : List (Nat × DBKey)) (id : Nat) : Option DBKey :=
  (db.find? (fun p => p.1 == id)).map Prod.snd

/-- Row update by id (`tx.Model(&key).Updates(...)`). -/
def dbUpdateById (db : List (Nat × DBKey)) (id : Nat) (f : DBKey → DBKey) :
    List (Nat × DBKey) :=
  db.map (fun p => if p.1 == id then (p.1, f p.2) else p)

def setKeyHash (sys : SysState) (id : Nat) (kh : StoreKeyHash) : SysState :=
  { sys with keyHashes := fun i => if i = id then some kh else sys.keyHashes i }

def setActiveList (sys : SysState) (g : Nat) (l : List Nat) : SysState :=
  { sys with activeKeys := fun g2 => if g2 = g then l else sys.activeKeys g2 }

/-- `LRem(list, 0, id)` removes every occurrence. -/
def lremAll (l : List Nat) (id : Nat) : List Nat := l.filter (fun x => !(x == id))

/-- `Rotate` pops the head and appends it to the tail, `none` on empty. -/
def rotateL : List Nat → Option (Nat × List Nat)
  | [] => none
  | h :: t => some (h, t ++ [h])

/-- The weight read `SelectKey` performs on a `key:{id}` hash: `strconv.Atoi`
of the `weight` field (0 on a missing field or hash) replaced by 500 when not
positive (provider.go lines 105-108 and 126-129). -/
def readWeight (sys : SysState) (id : Nat) : Int :=
  let w := ((sys.keyHashes id).bind StoreKeyHash.weight).getD 0
  if w ≤ 0 then 500 else w

/-- Status field as `getKeyDetails` reports it (`""` when the hash is absent,
as `HGetAll` of a missing key yields an empty map). -/
def keyStatus (sys : SysState) (id : Nat) : String :=
  match sys.keyHashes id with
  | none => ""
  | some kh => kh.status

/-- The weight-collection loop of `SelectKey` (provider.go lines 114-133):
rotate up to `fuel` more times, stopping on rotation failure or when the first
id reappears, recording each id with its read weight. -/
def collectLoop (sys : SysState) (first : Nat) :
    Nat → List Nat → List (Nat × Int) × List Nat
  | 0, l => ([], l)
  | fuel + 1, l =>
    match rotateL l with
    | none => ([], l)
    | some (id, l2) =>
      if id = first then ([], l2)
      else
        let r := collectLoop sys first fuel l2
        ((id, readWeight sys id) :: r.1, r.2)

/-- The weighted pick of `SelectKey` (provider.go lines 140-150): walk the
collected pairs accumulating weight, selecting the first pair whose cumulative
weight strictly exceeds `r`; the initial selection is the first id. -/
def pickLoop (r : Int) : List (Nat × Int) → Int → Nat → Nat
  | [], _, sel => sel
  | (id, w) :: rest, cum, sel =>
    if r < cum + w then id else pickLoop r rest (cum + w) sel

/-- Embedding of `SelectKey` (provider.go lines 65-154).  `r` stands for
`rand.Intn(totalWeight)`, hence the theorems assume `0 ≤ r < totalWeight`.
The only error the model can produce is `ErrNoActiveKeys`, encoded as `none`;
the store never fails in the model, and ids in the list are numeric, so the
parse failures of `selectKeyByRotate` cannot fire.  The returned `Nat` is the
id of the selected key, from which `getKeyDetails` builds the `APIKey`. -/
def SelectKey (sys : SysState) (g : Nat) (r : Int) : Option (Nat × SysState) :=
  let l := sys.activeKeys g
  if l.length = 0 then none
  else if l.length = 1 then
    match rotateL l with
    | none => none
    | some (id, l2) => some (id, setActiveList sys g l2)
  else
    match rotateL l with
    | none => none
    | some (first, l1) =>
      let firstPair := (first, readWeight sys first)
      let rest := collectLoop sys first (l.length - 1) l1
      let pairs := firstPair :: rest.1
      let totalWeight := (pairs.map Prod.snd).sum
      if pairs.length = 0 ∨ totalWeight = 0 then none
      else some (pickLoop r pairs 0 first, setActiveList sys g rest.2)

/-- The empty hash an `HSet`/`HIncrBy` on a missing key starts from. -/
def emptyKH : StoreKeyHash := ⟨"", none, none, none⟩

/-- Embedding of `handleSuccess` (provider.go lines 271-315).  A missing DB row
makes `tx.First` fail, aborting the transaction before any write. -/
def handleSuccess (sys : SysState) (keyID g : Nat) : SysState :=
  let kh? := sys.keyHashes keyID
  let fc := (kh?.bind StoreKeyHash.failure_count).getD 0
  let isActive := keyStatus sys keyID = "active"
  if fc = 0 ∧ isActive then sys
  else
    match dbLookup sys.db keyID with
    | none => sys
    | some _ =>
      let db2 := dbUpdateById sys.db keyID (fun k =>
        { k with failure_count := 0,
                 status := if ¬isActive then "active" else k.status })
      let base := kh?.getD emptyKH
      let kh2 := { base with failure_count := some 0,
                             status := if ¬isActive then "active" else base.status }
      let sys2 := setKeyHash { sys with db := db2 } keyID kh2
      if ¬isActive then
        setActiveList sys2 g (keyID :: lremAll (sys2.activeKeys g) keyID)
      else sys2

/-- Embedding of `handleFailure` (provider.go lines 317-371).  `threshold` is
`group.EffectiveConfig.BlacklistThreshold`; `force` is
`forceDisableOnFailure`. -/
def handleFailure (sys : SysState) (keyID g : Nat) (threshold : Int)
    (force : Bool) : SysState :=
  let kh? := sys.keyHashes keyID
  if keyStatus sys keyID = "invalid" then sys
  else
    let fc := (kh?.bind StoreKeyHash.failure_count).getD 0
    match dbLookup sys.db keyID with
    | none => sys
    | some _ =>
      let newFc := fc + 1
      let shouldBL : Bool := force || (decide (0 < threshold) && decide (threshold ≤ newFc))
      let db2 := dbUpdateById sys.db keyID (fun k =>
        { k with failure_count := newFc,
                 status := if shouldBL then "invalid" else k.status })
      let base := kh?.getD emptyKH
      let khInc := { base with failure_count := some (base.failure_count.getD 0 + 1) }
      let sys2 := setKeyHash { sys with db := db2 } keyID khInc
      if shouldBL then
        let sys3 := setActiveList sys2 g (lremAll (sys2.activeKeys g) keyID)
        setKeyHash sys3 keyID { khInc with status := "invalid" }
      else sys2

/-- Embedding of `UpdateStatus` (provider.go lines 220-242): the spawned report
task, applied at the moment it runs.  `uncounted` is the verdict of
`app_errors.IsUnCounted(errorMessage)`, whose code lives outside the provided
sources; the claims quantify over it, so it enters as a boolean. -/
def UpdateStatus (sys : SysState) (keyID g : Nat) (isSuccess uncounted : Bool)
    (threshold : Int) (force : Bool) : SysState :=
  if isSuccess then handleSuccess sys keyID g
  else if uncounted then sys
  else handleFailure sys keyID g threshold force

/-- Embedding of `clearCacheHitRecordsForKey` (provider.go lines 1044-1065):
every tracked entry referring to the key is dropped from the bookkeeping map
and deleted from the store. -/
def clearCacheHitRecordsForKey (sys : SysState) (keyID : Nat) : SysState :=
  { sys with cacheHit := sys.cacheHit.filter (fun e => !(e.2.keyID == keyID)) }

/-- `HSet` of `{base_weight, weight}` on a `key:{id}` hash. -/
def hsetWeights (sys : SysState) (keyID : Nat) (bw w : Int) : SysState :=
  let base := (sys.keyHashes keyID).getD emptyKH
  setKeyHash sys keyID { base with base_weight := some bw, weight := some w }

/-- `HSet` of `{weight}` alone. -/
def hsetWeightOnly (sys : SysState) (keyID : Nat) (w : Int) : SysState :=
  let base := (sys.keyHashes keyID).getD emptyKH
  setKeyHash sys keyID { base with weight := some w }

/-- Embedding of `UpdateKeyWeight` (provider.go lines 760-792); `none` is the
validation or `tx.First` error, leaving the state untouched. -/
def UpdateKeyWeight (sys : SysState) (keyID : Nat) (w : Int) : Option SysState :=
  if w < 1 ∨ w > 1000 then none
  else
    match dbLookup sys.db keyID with
    | none => none
    | some _ =>
      let db2 := dbUpdateById sys.db keyID (fun k =>
        { k with base_weight := w, weight := w })
      some (clearCacheHitRecordsForKey
        (hsetWeights { sys with db := db2 } keyID w w) keyID)

/-- Row predicate of the `group_id = ? AND key_hash IN ?` where-clause. -/
def matchesHashes (g : Nat) (hashes : List (List Char)) (p : Nat × DBKey) : Bool :=
  p.2.group_id == g && hashes.any (fun h => h == p.2.key_hash)

/-- Embedding of `UpdateKeysWeight` (provider.go lines 795-850). -/
def UpdateKeysWeight (sys : SysState) (g : Nat) (hashes : List (List Char))
    (w : Int) : Option SysState :=
  if w < 1 ∨ w > 1000 then none
  else
    let matched := sys.db.filter (matchesHashes g hashes)
    if matched.length = 0 then some sys
    else
      let db2 := sys.db.map (fun p =>
        if matchesHashes g hashes p then (p.1, { p.2 with base_weight := w, weight := w })
        else p)
      some (matched.foldl
        (fun s p => clearCacheHitRecordsForKey (hsetWeights s p.1 w w) p.1)
        { sys with db := db2 })

/-- Embedding of `ResetKeysWeight` (provider.go lines 854-898): every key of
the group is reset to the default 500 in DB and store, and its cache-hit
records cleared. -/
def ResetKeysWeight (sys : SysState) (g : Nat) : SysState :=
  let db2 := sys.db.map (fun p =>
    if p.2.group_id == g then (p.1, { p.2 with base_weight := 500, weight := 500 })
    else p)
  let matched := sys.db.filter (fun p => p.2.group_id == g)
  matched.foldl
    (fun s p => clearCacheHitRecordsForKey (hsetWeights s p.1 500 500) p.1)
    { sys with db := db2 }

/-- Embedding of `ResetSingleKeyWeight` (provider.go lines 901-929): only the
`weight` column and store field are written, to the key's `base_weight`
(500 when that is not positive). -/
def ResetSingleKeyWeight (sys : SysState) (keyID : Nat) : Option SysState :=
  match dbLookup sys.db keyID with
  | none => none
  | some k =>
    let bw := if k.base_weight ≤ 0 then 500 else k.base_weight
    let db2 := dbUpdateById sys.db keyID (fun kk => { kk with weight := bw })
    some (clearCacheHitRecordsForKey
      (hsetWeightOnly { sys with db := db2 } keyID bw) keyID)

/-- Embedding of the goroutine body of `AdjustKeyWeightAsync` (provider.go
lines 1085-1106), applied at the point the task runs: clamp
`weight + delta` to `[1, base_weight]` (base 500 when the field is missing or
not positive) and `HSet` the result. -/
def AdjustKeyWeight (sys : SysState) (keyID : Nat) (delta : Int) : SysState :=
  let kh? := sys.keyHashes keyID
  let cw := (kh?.bind StoreKeyHash.weight).getD 0
  let bw0 := (kh?.bind StoreKeyHash.base_weight).getD 0
  let bw := if bw0 ≤ 0 then 500 else bw0
  let nw0 := cw + delta
  let nw1 := if nw0 < 1 then 1 else nw0
  let nw := if nw1 > bw then bw else nw1
  hsetWeightOnly sys keyID nw

/-- Lookup of a `cache_hit:group:{g}:hash:{h}` entry (`getCacheHitEntry`). -/
def cacheHitLookup (sys : SysState) (g : Nat) (h : List Char) :
    Option CacheHitEntry :=
  (sys.cacheHit.find? (fun e => e.1.1 == g && e.1.2 == h)).map Prod.snd

/-- Embedding of `setCacheHitEntry` (provider.go lines 1018-1034): a 10-minute
entry (`now` in Unix seconds) written to the store and recorded in the
bookkeeping map. -/
def setCacheHitEntry (sys : SysState) (g : Nat) (h : List Char) (keyID : Nat)
    (now : Int) : SysState :=
  { sys with cacheHit := ((g, h), ⟨keyID, now + 600⟩) ::
      sys.cacheHit.filter (fun e => !(e.1.1 == g && e.1.2 == h)) }

/-- Deletion of a cache-hit entry from store and bookkeeping map. -/
def cacheHitDelete (sys : SysState) (g : Nat) (h : List Char) : SysState :=
  { sys with cacheHit := sys.cacheHit.filter (fun e => !(e.1.1 == g && e.1.2 == h)) }

/-- The `dropCount ∈ {2,4,6}` probe loop of `SelectKeyWithCacheHit`
(provider.go lines 943-1000) together with its total-miss tail (lines
984-1000).  Weight adjustments are the effect of `AdjustKeyWeightAsync` at the
point its task runs; `scheduleHashDeletion` (a deletion five minutes in the
future) has no immediate state effect and the claims do not reach it. -/
def cacheHitProbe (sha : List Char → List Nat) (g : Nat) (messages : List Json)
    (r now : Int) : List Nat → SysState → Option (Nat × SysState)
  | [], sys =>
    match SelectKey sys g r with
    | none => none
    | some (k, sys1) =>
      let newHash := CalculatePromptHash sha messages 2
      if newHash ≠ [] then
        some (k, AdjustKeyWeight (setCacheHitEntry sys1 g newHash k now) k (-1))
      else some (k, sys1)
  | d :: ds, sys =>
    let h := CalculatePromptHash sha messages d
    if h = [] then cacheHitProbe sha g messages r now ds sys
    else
      match cacheHitLookup sys g h with
      | none => cacheHitProbe sha g messages r now ds sys
      | some e =>
        if keyStatus sys e.keyID ≠ "active" then
          cacheHitProbe sha g messages r now ds
            (AdjustKeyWeight (cacheHitDelete sys g h) e.keyID 1)
        else
          let newHash := CalculatePromptHash sha messages 2
          let sys1 :=
            if newHash ≠ [] ∧ newHash ≠ h then
              AdjustKeyWeight (setCacheHitEntry sys g newHash e.keyID now) e.keyID (-1)
            else sys
          some (e.keyID, sys1)

/-- Embedding of `SelectKeyWithCacheHit` (provider.go lines 932-1001). -/
def SelectKeyWithCacheHit (sha : List Char → List Nat) (sys : SysState)
    (g : Nat) (body : Option Json) (enable : Bool) (r now : Int) :
    Option (Nat × SysState) :=
  if ¬enable then SelectKey sys g r
  else
    let em := ExtractMessages body
    if em.2 ≤ 4096 ∨ em.1.length < 3 then SelectKey sys g r
    else cacheHitProbe sha g em.1 r now [2, 4, 6] sys

/-- A key as parsed from the import text (`KeyWithWeight` in key_service.go). -/
structure KeyWithWeight where
  key : List Char
  weight : Int
deriving Repr, DecidableEq

/-- Embedding of `isValidKeyFormat` (key_service.go lines 279-281). -/
def isValidKeyFormat (k : List Char) : Bool := !(goTrimSpace k).isEmpty

/-- Index of the last occurrence of a character (`strings.LastIndex`; Go's
-1 result is `none`). -/
def lastIndexOf (l : List Char) (c : Char) : Option Nat :=
  match l with
  | [] => none
  | x :: xs =>
    match lastIndexOf xs c with
    | some i => some (i + 1)
    | none => if x = c then some 0 else none

/-- Embedding of `parseKeyWithWeight` (key_service.go lines 238-264): the
suffix after the last colon becomes the weight only when the colon is neither
first nor last, the suffix parses by `strconv.Atoi` into `[1,1000]`, and the
trimmed prefix is a valid key; any failed check falls through to treating the
whole trimmed input as the key with weight 500. -/
def parseKeyWithWeight (input0 : List Char) : Option KeyWithWeight :=
  let input := goTrimSpace input0
  if input.isEmpty then none
  else
    let attempt : Option KeyWithWeight :=
      match lastIndexOf input ':' with
      | some i =>
        if 0 < i ∧ i + 1 < input.length then
          match goAtoi (input.drop (i + 1)) with
          | some w =>
            if 1 ≤ w ∧ w ≤ 1000 then
              let key := goTrimSpace (input.take i)
              if isValidKeyFormat key then some ⟨key, w⟩ else none
            else none
          | none => none
        else none
      | none => none
    match attempt with
    | some kw => some kw
    | none => if isValidKeyFormat input then some ⟨input, 500⟩ else none

/-- The weight normalisation applied by `processAndCreateKeysWithWeight`
(key_service.go lines 155-160) to each caller-supplied weight before the key
is created. -/
def addWeightNorm (w : Int) : Int :=
  if w < 1 then 500 else if w > 1000 then 5000 else w

/-- A key record prepared for creation (the fields of the `models.APIKey`
literal built at key_service.go lines 163-169; `BaseWeight` is absent from the
literal and therefore carries Go's zero value). -/
structure NewKey where
  key_value : List Char
  key_hash : List Char
  weight : Int
deriving Repr, DecidableEq

/-- The filter loop of `processAndCreateKeysWithWeight` (key_service.go lines
137-170): drop blank, duplicate and already-present keys, encrypt the rest and
normalise the weight.  `hash` and `encrypt` stand for the encryption service
(`Hash` is deterministic; `Encrypt` cannot fail when no encryption key is
configured, and an encryption failure merely skips the key, which no claim
exercises). -/
def buildNewKeys (hash encrypt : List Char → List Char)
    (existing : List (List Char)) :
    List KeyWithWeight → List (List Char) → List NewKey
  | [], _ => []
  | kw :: rest, seen =>
    let t := goTrimSpace kw.key
    if t.isEmpty || seen.any (fun s => s == t) || !isValidKeyFormat t then
      buildNewKeys hash encrypt existing rest seen
    else
      let h := hash t
      if existing.any (fun e => e == h) then
        buildNewKeys hash encrypt existing rest seen
      else
        ⟨encrypt t, h, addWeightNorm kw.weight⟩ ::
          buildNewKeys hash encrypt existing rest (t :: seen)

/-- Embedding of `apiKeyToMap` (provider.go lines 729-748) restricted to the
fields the model carries: a non-positive `BaseWeight` becomes 500 and a
non-positive `Weight` becomes that base weight. -/
def apiKeyToHash (baseW w fc : Int) (status : String) : StoreKeyHash :=
  let bw := if baseW ≤ 0 then 500 else baseW
  let ww := if w ≤ 0 then bw else w
  ⟨status, some bw, some ww, some fc⟩

/-- Embedding of `addKeyToStore` (provider.go lines 693-712): `HSet` the hash
and, for an active key, `LRem` + `LPush` it onto the group's active list. -/
def addKeyToStore (sys : SysState) (id g : Nat) (kh : StoreKeyHash)
    (active : Bool) : SysState :=
  let sys1 := setKeyHash sys id kh
  if active then setActiveList sys1 g (id :: lremAll (sys1.activeKeys g) id)
  else sys1

/-- Embedding of `AddKeys` (provider.go lines 435-455): insert the prepared
rows (ids assigned consecutively from `nextId` by the autoincrement) and
mirror each into the store. -/
def addKeysToSys (g nextId : Nat) (nks : List NewKey) (sys : SysState) :
    SysState :=
  match nks with
  | [] => sys
  | nk :: rest =>
    let row : DBKey :=
      ⟨g, nk.key_hash, "active", 0, nk.weight, 0⟩
    let sys1 := { sys with db := sys.db ++ [(nextId, row)] }
    let kh := apiKeyToHash 0 nk.weight 0 "active"
    addKeysToSys g (nextId + 1) rest (addKeyToStore sys1 nextId g kh true)

/-- Embedding of `processAndCreateKeysWithWeight` (key_service.go lines
118-194): dedup against the group's existing hashes, build the new records and
create them through `AddKeys`.  Creation happens in chunks of 500, which
inserts the same rows in the same order as a single pass and is elided. -/
def processAndCreateKeysWithWeight (hash encrypt : List Char → List Char)
    (g : Nat) (keys : List KeyWithWeight) (sys : SysState) (nextId : Nat) :
    SysState :=
  let existing := (sys.db.filter (fun p => p.2.group_id == g)).map
    (fun p => p.2.key_hash)
  addKeysToSys g nextId (buildNewKeys hash encrypt existing keys []) sys

/-- Spec-side reading of the weight suffix: an integer in `[1,1000]`. -/
def weightOfSuffix (s : List Char) : Option Int :=
  match goAtoi s with
  | some w => if 1 ≤ w ∧ w ≤ 1000 then some w else none
  | none => none

/-- Claim-side description of the parser: the suffix after the last colon is
treated as the weight only when it parses as an integer in `[1,1000]` and the
prefix is non-empty; otherwise the entire (trimmed) line is the key with the
default weight 500. -/
def parseKeySpec (input0 : List Char) : Option KeyWithWeight :=
  let input := goTrimSpace input0
  if input.isEmpty then none
  else
    match lastIndexOf input ':' with
    | some i =>
      match weightOfSuffix (input.drop (i + 1)) with
      | some w =>
        if input.take i ≠ [] then some ⟨goTrimSpace (input.take i), w⟩
        else some ⟨input, 500⟩
      | none => some ⟨input, 500⟩
    | none => some ⟨input, 500⟩

/-- The state before any key exists. -/
def emptySys : SysState := ⟨[], fun _ => none, fun _ => [], []⟩

/-- Spec invariant P2 / I3 for a stored key hash:
`1 ≤ weight ≤ base_weight ≤ 1000`. -/
def storeWeightInvariant (kh : StoreKeyHash) : Prop :=
  ∃ w b, kh.weight = some w ∧ kh.base_weight = some b ∧
    1 ≤ w ∧ w ≤ b ∧ b ≤ 1000

/-- Status column of the key's DB row. -/
def dbStatusOf (sys : SysState) (id : Nat) : Option String :=
  (dbLookup sys.db id).map DBKey.status

/-- Failure-count column of the key's DB row. -/
def dbFailureCountOf (sys : SysState) (id : Nat) : Option Int :=
  (dbLookup sys.db id).map DBKey.failure_count

/-- Failure-count field of the key's store hash. -/
def storeFailureCountOf (sys : SysState) (id : Nat) : Option Int :=
  (sys.keyHashes id).bind StoreKeyHash.failure_count

/-- Base-weight field of the key's store hash. -/
def storeBaseWeightOf (sys : SysState) (id : Nat) : Option Int :=
  (sys.keyHashes id).bind StoreKeyHash.base_weight

/-- Weight field of the key's store hash. -/
def storeWeightOf (sys : SysState) (id : Nat) : Option Int :=
  (sys.keyHashes id).bind StoreKeyHash.weight

/-- Concrete one-key pool used to instantiate the failure-report theorem: key
1 in group 1, active with failure count 2 in DB and cache. -/
def wSysFail : SysState :=
  ⟨[(1, ⟨1, "h".data, "active", 500, 500, 2⟩)],
   fun i => if i = 1 then some ⟨"active", some 500, some 500, some 2⟩ else none,
   fun g => if g = 1 then [1] else [],
   []⟩

/-- Concrete one-key pool used to instantiate the success-report theorem: key
2 in group 3, invalid with failure count 4, absent from the active list. -/
def wSysSucc : SysState :=
  ⟨[(2, ⟨3, "h2".data, "invalid", 500, 500, 4⟩)],
   fun i => if i = 2 then some ⟨"invalid", some 500, some 500, some 4⟩ else none,
   fun _ => [],
   []⟩

/-- Concrete one-key pool with a live cache-hit entry, used to instantiate
the weight-administration theorem: key 5 in group 2, weights 300/200, and a
cache-hit entry referring to key 5. -/
def wSysW : SysState :=
  ⟨[(5, ⟨2, "kh5".data, "active", 300, 200, 0⟩)],
   fun i => if i = 5 then some ⟨"active", some 300, some 200, some 0⟩ else none,
   fun g => if g = 2 then [5] else [],
   [((2, "ab".data), ⟨5, 100⟩)]⟩

/-- Claim-side description of the ids `SelectKey` collects: the rotated-out
head followed by the tail up to (excluding) the first reappearance of the
head. -/
def collectSpec (l : List Nat) : List Nat :=
  match l with
  | [] => []
  | h :: t => h :: t.takeWhile (fun x => x ≠ h)

/-- Ids paired with their read weights. -/
def pairsSpec (sys : SysState) (ids : List Nat) : List (Nat × Int) :=
  ids.map (fun kid => (kid, readWeight sys kid))

/-- Claim-side weighted pick: the first id whose cumulative weight strictly
exceeds the draw. -/
def firstCross : List (Nat × Int) → Int → Option Nat
  | [], _ => none
  | (kid, w) :: rest, r => if r < w then some kid else firstCross rest (r - w)

/-- Concrete two-key pool used to instantiate the selection theorem: keys 1
(weight 100) and 2 (weight 300) active in group 1. -/
def wSysSel : SysState :=
  ⟨[],
   fun i => if i = 1 then some ⟨"active", some 500, some 100, some 0⟩
     else if i = 2 then some ⟨"active", some 500, some 300, some 0⟩ else none,
   fun g => if g = 1 then [1, 2] else [],
   []⟩

/-- Claim-side prompt hash: the hex SHA-256 of the serialized, cache_control-
stripped message prefix, truncated to 32 hex characters; empty when
`drop_count` reaches the message count or the remaining prefix is empty. -/
def promptHashSpec (sha : List Char → List Nat) (messages : List Json)
    (dropCount : Nat) : List Char :=
  if dropCount ≥ messages.length ∨ messages.length - dropCount < 1 then []
  else
    (hexEncode (sha (Json.render (Json.arr (stripCacheControl
      (messages.take (messages.length - dropCount))))))).take 32

/-- A stand-in digest used to instantiate the abstract SHA-256 in witnesses:
any function returning 32 bytes satisfies the theorems' digest hypothesis. -/
def shaZero : List Char → List Nat := fun _ => List.replicate 32 0

/-- Claim-side test for "the body contains `messages` as a JSON array". -/
def hasMessagesArray : Option Json → Bool
  | some (.obj fs) =>
    match lookupField fs "messages".data with
    | some (.arr _) => true
    | _ => false
  | _ => false

/-- A three-message request whose serialized form exceeds 4 KiB, used to
instantiate the affinity theorem. -/
def bigMsgs : List Json :=
  [Json.str (List.replicate 4200 'a'), Json.null, Json.null]

/-- The request body carrying `bigMsgs`. -/
def bodyBig : Option Json := some (Json.obj [("messages".data, Json.arr bigMsgs)])

/-- Concrete pool with a cache-hit entry for the `shaZero` hash of `bigMsgs`
at drop 2 (the 32-character zero hex string), referencing active key 9. -/
def wSysHit : SysState :=
  ⟨[],
   fun i => if i = 9 then some ⟨"active", some 500, some 400, some 0⟩ else none,
   fun g => if g = 1 then [9] else [],
   [((1, List.replicate 32 '0'), ⟨9, 50⟩)]⟩

-- ===== DEFINITIONS END: helper lemmas and claim theorems follow =====

section TrimLemmas

variable {α : Type} (p : α → Bool)

lemma dropWhile_head_false : ∀ {l : List α} {c : α} {t : List α},
    l.dropWhile p = c :: t → p c = false := by
  intro l
  induction l with
  | nil => intro c t h; simp [List.dropWhile] at h
  | cons x xs ih =>
    intro c t h
    by_cases hx : p x
    · exact ih (by simpa [List.dropWhile, hx] using h)
    · rw [List.dropWhile_cons_of_neg hx] at h
      cases h
      simpa using hx

lemma exists_mem_dropWhile : ∀ {l : List α}, (∃ x ∈ l, p x = false) →
    ∃ x ∈ l.dropWhile p, p x = false := by
  intro l
  induction l with
  | nil => intro h; simp at h
  | cons y ys ih =>
    rintro ⟨x, hx, hpx⟩
    by_cases hy : p y
    · rw [List.dropWhile_cons_of_pos hy]
      rcases List.mem_cons.mp hx with rfl | hmem
      · simp [hy] at hpx
      · exact ih ⟨x, hmem, hpx⟩
    · rw [List.dropWhile_cons_of_neg hy]
      exact ⟨x, hx, hpx⟩

lemma dropWhile_ne_nil_of_exists {l : List α} (h : ∃ x ∈ l, p x = false) :
    l.dropWhile p ≠ [] := by
  rcases exists_mem_dropWhile p h with ⟨x, hx, _⟩
  intro hnil
  rw [hnil] at hx
  simp at hx

end TrimLemmas

lemma goTrimSpace_head_false {l : List Char} {c : Char} {t : List Char}
    (h : goTrimSpace l = c :: t) : isGoSpace c = false :=
  dropWhile_head_false isGoSpace h

lemma goTrimSpace_cons_ne_nil {c : Char} {t : List Char}
    (hc : isGoSpace c = false) : goTrimSpace (c :: t) ≠ [] := by
  have hmem : ∃ x ∈ (c :: t).reverse, isGoSpace x = false :=
    ⟨c, by simp, hc⟩
  have hmid : ∃ x ∈ trimRightChars (c :: t), isGoSpace x = false := by
    rcases exists_mem_dropWhile isGoSpace hmem with ⟨x, hx, hpx⟩
    exact ⟨x, by simpa [trimRightChars] using hx, hpx⟩
  exact dropWhile_ne_nil_of_exists isGoSpace hmid

lemma goTrimSpace_trim_ne_nil {l : List Char} (h : goTrimSpace l ≠ []) :
    goTrimSpace (goTrimSpace l) ≠ [] := by
  cases hg : goTrimSpace l with
  | nil => exact absurd hg h
  | cons c t => exact goTrimSpace_ne_nil_aux (goTrimSpace_head_false hg)
where
  goTrimSpace_ne_nil_aux {c : Char} {t : List Char} (hc : isGoSpace c = false) :
      goTrimSpace (c :: t) ≠ [] := goTrimSpace_cons_ne_nil hc

lemma isValidKeyFormat_of_trim_ne_nil {l : List Char}
    (h : goTrimSpace l ≠ []) : isValidKeyFormat (goTrimSpace l) = true := by
  unfold isValidKeyFormat
  have := goTrimSpace_trim_ne_nil h
  simp [List.isEmpty_iff, this]

/-- C10: for every input line, the parser agrees with the colon-suffix rule:
the suffix after the last colon becomes the weight exactly when it parses as
an integer in `[1,1000]` and the prefix is non-empty; otherwise the whole
trimmed line is the key with default weight 500 — so `sk-abc:2000` and
`sk-abc:0` become keys containing a colon rather than being rejected. -/
theorem parseKeyWithWeight_colon_suffix_rule :
    (∀ input0 : List Char, parseKeyWithWeight input0 = parseKeySpec input0) ∧
    parseKeyWithWeight "sk-abc:2000".data = some ⟨"sk-abc:2000".data, 500⟩ ∧
    parseKeyWithWeight "sk-abc:0".data = some ⟨"sk-abc:0".data, 500⟩ := by
  refine ⟨?_, by decide, by decide⟩
  intro input0
  unfold parseKeyWithWeight parseKeySpec
  by_cases hemp : (goTrimSpace input0).isEmpty
  · simp [hemp]
  · have hne : goTrimSpace input0 ≠ [] := by
      simpa [List.isEmpty_iff] using hemp
    have hvalid : isValidKeyFormat (goTrimSpace input0) = true :=
      isValidKeyFormat_of_trim_ne_nil hne
    obtain ⟨c, t, hct⟩ : ∃ c t, goTrimSpace input0 = c :: t := by
      cases hg : goTrimSpace input0 with
      | nil => exact absurd hg hne
      | cons c t => exact ⟨c, t, rfl⟩
    have hc : isGoSpace c = false := goTrimSpace_head_false hct
    cases hidx : lastIndexOf (goTrimSpace input0) ':' with
    | none => simp [hemp, hidx, hvalid]
    | some i =>
      by_cases hi0 : 0 < i
      · by_cases hilen : i + 1 < (goTrimSpace input0).length
        · cases hw : goAtoi ((goTrimSpace input0).drop (i + 1)) with
          | none => simp [hemp, hidx, hi0, hilen, hw, hvalid, weightOfSuffix]
          | some w =>
            by_cases hrange : 1 ≤ w ∧ w ≤ 1000
            · have htake : ∃ t2, (goTrimSpace input0).take i = c :: t2 := by
                obtain ⟨i2, rfl⟩ : ∃ i2, i = i2 + 1 :=
                  ⟨i - 1, by omega⟩
                rw [hct]
                exact ⟨t.take i2, rfl⟩
              obtain ⟨t2, ht2⟩ := htake
              have htk_ne : goTrimSpace ((goTrimSpace input0).take i) ≠ [] := by
                rw [ht2]
                exact goTrimSpace_cons_ne_nil hc
              have hkv : isValidKeyFormat (goTrimSpace ((goTrimSpace input0).take i)) = true := by
                unfold isValidKeyFormat
                have := goTrimSpace_trim_ne_nil htk_ne
                simp [List.isEmpty_iff, this]
              rw [ht2] at hkv
              simp [hemp, hidx, hi0, hilen, hw, hrange, hkv, weightOfSuffix, ht2]
            · simp [hemp, hidx, hi0, hilen, hw, hrange, hvalid, weightOfSuffix]
        · have hdrop : (goTrimSpace input0).drop (i + 1) = [] :=
            List.drop_eq_nil_of_le (by omega)
          simp [hemp, hidx, hi0, hilen, hdrop, hvalid, weightOfSuffix, goAtoi]
      · have hi : i = 0 := by omega
        subst hi
        simp only [List.take_zero]
        cases hw : weightOfSuffix ((goTrimSpace input0).tail) with
        | none => simp [hemp, hidx, hw, hvalid, List.drop_one]
        | some w => simp [hemp, hidx, hw, hvalid, List.drop_one]

/-- C1: evaluating the bulk-add pipeline at a caller-supplied weight of 2000
shows the claim fails on the code: `processAndCreateKeysWithWeight` maps any
weight above 1000 to 5000 (not to a value in `[1,1000]`), and 5000 is what the
created key stores in the hot cache. -/
theorem bulkAdd_weight_2000_stores_5000 :
    addWeightNorm 2000 = 5000 ∧
    ((processAndCreateKeysWithWeight id id 1 [⟨"k".data, 2000⟩] emptySys 1).keyHashes 1).bind
        StoreKeyHash.weight = some 5000 ∧
    ¬(5000 : Int) ≤ 1000 := by
  refine ⟨by decide, by decide, by decide⟩

/-- C2: the invariant `1 ≤ weight ≤ base_weight ≤ 1000` is violated by a
single bulk add of the well-formed import line `sk-proj-1:1000`: the created
key's hot-cache hash carries `weight = 1000` but `base_weight = 500`, because
the bulk-add path never sets `BaseWeight` and `apiKeyToMap` substitutes the
default 500 for the zero value. -/
theorem bulkAdd_violates_weight_invariant :
    parseKeyWithWeight "sk-proj-1:1000".data = some ⟨"sk-proj-1".data, 1000⟩ ∧
    (processAndCreateKeysWithWeight id id 7 [⟨"sk-proj-1".data, 1000⟩] emptySys 1).keyHashes 1 =
      some ⟨"active", some 500, some 1000, some 0⟩ ∧
    ¬ storeWeightInvariant ⟨"active", some 500, some 1000, some 0⟩ := by
  refine ⟨by decide, by decide, ?_⟩
  rintro ⟨w, b, hw, hb, h1, h2, h3⟩
  cases hw
  cases hb
  omega

lemma dbLookup_dbUpdateById (db : List (Nat × DBKey)) (id : Nat)
    (f : DBKey → DBKey) :
    dbLookup (dbUpdateById db id f) id = (dbLookup db id).map f := by
  induction db with
  | nil => rfl
  | cons p rest ih =>
    simp only [dbUpdateById, List.map_cons]
    by_cases h : (p.1 == id) = true
    · rw [if_pos h]
      simp [dbLookup, List.find?_cons, h]
    · rw [if_neg h]
      have h2 : (p.1 == id) = false := by simpa using h
      simp only [dbLookup, List.find?_cons, h2, cond_false]
      simp only [dbLookup, dbUpdateById] at ih
      exact ih

lemma not_mem_lremAll (l : List Nat) (id : Nat) : id ∉ lremAll l id := by
  intro h
  have := (List.mem_filter.mp h).2
  simp at this

lemma count_cons_lremAll (l : List Nat) (id : Nat) :
    (id :: lremAll l id).count id = 1 := by
  rw [List.count_cons_self]
  rw [List.count_eq_zero.mpr (not_mem_lremAll l id)]

lemma handleFailure_closed (sys : SysState) (keyID g : Nat) (threshold : Int)
    (force : Bool) (kh : StoreKeyHash) (dbk : DBKey)
    (h1 : sys.keyHashes keyID = some kh) (h2 : kh.status ≠ "invalid")
    (h3 : dbLookup sys.db keyID = some dbk) :
    handleFailure sys keyID g threshold force =
      (let newFc := kh.failure_count.getD 0 + 1
       let shouldBL := force || (decide (0 < threshold) && decide (threshold ≤ newFc))
       let db2 := dbUpdateById sys.db keyID (fun k =>
         { k with failure_count := newFc,
                  status := if shouldBL then "invalid" else k.status })
       let khInc := { kh with failure_count := some newFc }
       let sys2 := setKeyHash { sys with db := db2 } keyID khInc
       if shouldBL then
         setKeyHash (setActiveList sys2 g (lremAll (sys2.activeKeys g) keyID))
           keyID { khInc with status := "invalid" }
       else sys2) := by
  have hks : keyStatus sys keyID = kh.status := by simp [keyStatus, h1]
  unfold handleFailure
  rw [hks, if_neg h2]
  simp only [h1, h3, Option.some_bind, Option.getD_some]

/-- C5: a failure report with an uncounted error classification is a no-op; a
failure report on a key whose cached status is already invalid is a no-op;
otherwise the report increments the failure count by one in both DB and cache
and it blacklists the key (status invalid in DB and cache, removed from the
group's active list) exactly when force-disable is set or the threshold is
positive and reached by the new count, leaving status and active list
untouched otherwise. -/
theorem report_failure_accounting (sys : SysState) (keyID g : Nat)
    (threshold : Int) (force : Bool) (kh : StoreKeyHash) (dbk : DBKey) :
    UpdateStatus sys keyID g false true threshold force = sys ∧
    (sys.keyHashes keyID = some kh → kh.status = "invalid" →
      UpdateStatus sys keyID g false false threshold force = sys) ∧
    (sys.keyHashes keyID = some kh → kh.status ≠ "invalid" →
      dbLookup sys.db keyID = some dbk →
      dbk.failure_count = kh.failure_count.getD 0 →
      storeFailureCountOf (UpdateStatus sys keyID g false false threshold force) keyID
          = some (kh.failure_count.getD 0 + 1) ∧
      dbFailureCountOf (UpdateStatus sys keyID g false false threshold force) keyID
          = some (dbk.failure_count + 1) ∧
      ((force = true ∨ (0 < threshold ∧ threshold ≤ kh.failure_count.getD 0 + 1)) →
        keyStatus (UpdateStatus sys keyID g false false threshold force) keyID = "invalid" ∧
        dbStatusOf (UpdateStatus sys keyID g false false threshold force) keyID
            = some "invalid" ∧
        keyID ∉ (UpdateStatus sys keyID g false false threshold force).activeKeys g) ∧
      (¬(force = true ∨ (0 < threshold ∧ threshold ≤ kh.failure_count.getD 0 + 1)) →
        keyStatus (UpdateStatus sys keyID g false false threshold force) keyID = kh.status ∧
        dbStatusOf (UpdateStatus sys keyID g false false threshold force) keyID
            = some dbk.status ∧
        (UpdateStatus sys keyID g false false threshold force).activeKeys
            = sys.activeKeys)) := by
  refine ⟨rfl, ?_, ?_⟩
  · intro h1 h2
    show handleFailure sys keyID g threshold force = sys
    have hks : keyStatus sys keyID = kh.status := by simp [keyStatus, h1]
    unfold handleFailure
    rw [hks, if_pos h2]
  · intro h1 h2 h3 h4
    have hcl := handleFailure_closed sys keyID g threshold force kh dbk h1 h2 h3
    show _ ∧ _ ∧ _ ∧ _
    by_cases hbl : force = true ∨ (0 < threshold ∧ threshold ≤ kh.failure_count.getD 0 + 1)
    · have hblb : (force || (decide (0 < threshold) &&
          decide (threshold ≤ kh.failure_count.getD 0 + 1))) = true := by
        rcases hbl with hf | ⟨ht1, ht2⟩
        · simp [hf]
        · simp [ht1, ht2]
      have hres : UpdateStatus sys keyID g false false threshold force =
          setKeyHash (setActiveList
            (setKeyHash { sys with db := dbUpdateById sys.db keyID (fun k =>
              { k with failure_count := kh.failure_count.getD 0 + 1,
                       status := "invalid" }) } keyID
              { kh with failure_count := some (kh.failure_count.getD 0 + 1) })
            g (lremAll (sys.activeKeys g) keyID)) keyID
            { kh with failure_count := some (kh.failure_count.getD 0 + 1),
                      status := "invalid" } := by
        show handleFailure sys keyID g threshold force = _
        rw [hcl]
        simp only [hblb, if_true, setKeyHash, setActiveList]
      refine ⟨?_, ?_, fun _ => ⟨?_, ?_, ?_⟩, fun hc => absurd hbl hc⟩
      · rw [hres]; simp [storeFailureCountOf, setKeyHash, setActiveList]
      · rw [hres]
        simp only [dbFailureCountOf, setKeyHash, setActiveList]
        rw [dbLookup_dbUpdateById, h3, h4]
        rfl
      · rw [hres]; simp [keyStatus, setKeyHash, setActiveList]
      · rw [hres]
        simp only [dbStatusOf, setKeyHash, setActiveList]
        rw [dbLookup_dbUpdateById, h3]
        rfl
      · rw [hres]
        simp only [setKeyHash, setActiveList]
        exact not_mem_lremAll _ _
    · have hblb : (force || (decide (0 < threshold) &&
          decide (threshold ≤ kh.failure_count.getD 0 + 1))) = false := by
        push_neg at hbl
        rcases hbl with ⟨hf, hrest⟩
        cases force
        · by_cases ht : 0 < threshold
          · simp [ht, hrest ht]
          · simp [ht]
        · exact absurd rfl hf
      have hres : UpdateStatus sys keyID g false false threshold force =
          setKeyHash { sys with db := dbUpdateById sys.db keyID (fun k =>
            { k with failure_count := kh.failure_count.getD 0 + 1 }) } keyID
            { kh with failure_count := some (kh.failure_count.getD 0 + 1) } := by
        show handleFailure sys keyID g threshold force = _
        rw [hcl]
        simp only [hblb, Bool.false_eq_true, if_false]
      refine ⟨?_, ?_, fun hc => absurd hc hbl, fun _ => ⟨?_, ?_, ?_⟩⟩
      · rw [hres]; simp [storeFailureCountOf, setKeyHash]
      · rw [hres]
        simp only [dbFailureCountOf, setKeyHash]
        rw [dbLookup_dbUpdateById, h3, h4]
        rfl
      · rw [hres]; simp [keyStatus, setKeyHash]
      · rw [hres]
        simp only [dbStatusOf, setKeyHash]
        rw [dbLookup_dbUpdateById, h3]
        rfl
      · rw [hres]
        rfl

theorem report_failure_accounting_witness :
    storeFailureCountOf (UpdateStatus wSysFail 1 1 false false 3 false) 1 = some 3 ∧
    keyStatus (UpdateStatus wSysFail 1 1 false false 3 false) 1 = "invalid" ∧
    1 ∉ (UpdateStatus wSysFail 1 1 false false 3 false).activeKeys 1 := by
  have h := (report_failure_accounting wSysFail 1 1 3 false
      ⟨"active", some 500, some 500, some 2⟩
      ⟨1, "h".data, "active", 500, 500, 2⟩).2.2
      (by decide) (by decide) (by decide) (by decide)
  obtain ⟨hs, _, hbl, _⟩ := h
  have hb := hbl (Or.inr (by decide))
  exact ⟨by simpa using hs, hb.1, hb.2.2⟩

lemma handleSuccess_closed (sys : SysState) (keyID g : Nat)
    (kh : StoreKeyHash) (dbk : DBKey)
    (h1 : sys.keyHashes keyID = some kh)
    (h2 : ¬(kh.failure_count.getD 0 = 0 ∧ kh.status = "active"))
    (h3 : dbLookup sys.db keyID = some dbk) :
    handleSuccess sys keyID g =
      (let isActive := kh.status = "active"
       let db2 := dbUpdateById sys.db keyID (fun k =>
         { k with failure_count := 0,
                  status := if ¬isActive then "active" else k.status })
       let kh2 := { kh with failure_count := some 0,
                            status := if ¬isActive then "active" else kh.status }
       let sys2 := setKeyHash { sys with db := db2 } keyID kh2
       if ¬isActive then
         setActiveList sys2 g (keyID :: lremAll (sys2.activeKeys g) keyID)
       else sys2) := by
  have hks : keyStatus sys keyID = kh.status := by simp [keyStatus, h1]
  unfold handleSuccess
  rw [hks]
  simp only [h1, h3, Option.some_bind, Option.getD_some]
  rw [if_neg h2]

/-- C6: a success report is a no-op when the cached failure count is 0 and the
status is active; otherwise it zeroes the failure count in DB and cache, and
when the status was invalid it also flips the status to active in DB and cache
and re-inserts the key, which afterwards appears in the group's active list
exactly once. -/
theorem report_success_accounting (sys : SysState) (keyID g : Nat)
    (kh : StoreKeyHash) (dbk : DBKey) :
    (∀ (unc : Bool) (threshold : Int) (force : Bool),
        UpdateStatus sys keyID g true unc threshold force = handleSuccess sys keyID g) ∧
    (sys.keyHashes keyID = some kh → kh.failure_count.getD 0 = 0 →
      kh.status = "active" → handleSuccess sys keyID g = sys) ∧
    (sys.keyHashes keyID = some kh →
      ¬(kh.failure_count.getD 0 = 0 ∧ kh.status = "active") →
      dbLookup sys.db keyID = some dbk →
      storeFailureCountOf (handleSuccess sys keyID g) keyID = some 0 ∧
      dbFailureCountOf (handleSuccess sys keyID g) keyID = some 0 ∧
      (kh.status = "invalid" →
        keyStatus (handleSuccess sys keyID g) keyID = "active" ∧
        dbStatusOf (handleSuccess sys keyID g) keyID = some "active" ∧
        ((handleSuccess sys keyID g).activeKeys g).count keyID = 1)) := by
  refine ⟨fun _ _ _ => rfl, ?_, ?_⟩
  · intro h1 hfc hact
    have hks : keyStatus sys keyID = kh.status := by simp [keyStatus, h1]
    unfold handleSuccess
    rw [hks]
    simp only [h1, Option.some_bind, Option.getD_some]
    rw [if_pos ⟨hfc, hact⟩]
  · intro h1 h2 h3
    have hcl := handleSuccess_closed sys keyID g kh dbk h1 h2 h3
    by_cases hact : kh.status = "active"
    · have hres : handleSuccess sys keyID g =
          setKeyHash { sys with db := dbUpdateById sys.db keyID (fun k =>
            { k with failure_count := 0 }) } keyID
            { kh with failure_count := some 0 } := by
        rw [hcl]
        simp [hact]
      refine ⟨?_, ?_, fun hinv => absurd (hact.symm.trans hinv) (by decide)⟩
      · rw [hres]; simp [storeFailureCountOf, setKeyHash]
      · rw [hres]
        simp only [dbFailureCountOf, setKeyHash]
        rw [dbLookup_dbUpdateById, h3]
        rfl
    · have hres : handleSuccess sys keyID g =
          setActiveList (setKeyHash { sys with db := dbUpdateById sys.db keyID (fun k =>
            { k with failure_count := 0, status := "active" }) } keyID
            { kh with failure_count := some 0, status := "active" }) g
            (keyID :: lremAll (sys.activeKeys g) keyID) := by
        rw [hcl]
        simp [hact, setKeyHash]
      refine ⟨?_, ?_, fun _ => ⟨?_, ?_, ?_⟩⟩
      · rw [hres]; simp [storeFailureCountOf, setKeyHash, setActiveList]
      · rw [hres]
        simp only [dbFailureCountOf, setKeyHash, setActiveList]
        rw [dbLookup_dbUpdateById, h3]
        rfl
      · rw [hres]; simp [keyStatus, setKeyHash, setActiveList]
      · rw [hres]
        simp only [dbStatusOf, setKeyHash, setActiveList]
        rw [dbLookup_dbUpdateById, h3]
        rfl
      · rw [hres]
        simp only [setKeyHash, setActiveList, if_pos rfl]
        exact count_cons_lremAll _ _

theorem report_success_accounting_witness :
    keyStatus (UpdateStatus wSysSucc 2 3 true false 0 false) 2 = "active" ∧
    storeFailureCountOf (UpdateStatus wSysSucc 2 3 true false 0 false) 2 = some 0 ∧
    ((UpdateStatus wSysSucc 2 3 true false 0 false).activeKeys 3).count 2 = 1 := by
  have h0 := (report_success_accounting wSysSucc 2 3
      ⟨"invalid", some 500, some 500, some 4⟩
      ⟨3, "h2".data, "invalid", 500, 500, 4⟩).1 false 0 false
  have h := (report_success_accounting wSysSucc 2 3
      ⟨"invalid", some 500, some 500, some 4⟩
      ⟨3, "h2".data, "invalid", 500, 500, 4⟩).2.2
      (by decide) (by decide) (by decide)
  obtain ⟨hs, _, hinv⟩ := h
  have hi := hinv rfl
  rw [h0]
  exact ⟨hi.1, hs, hi.2.2⟩

lemma foldStep_keyHashes_not_mem (w : Int) (ms : List (Nat × DBKey))
    (s0 : SysState) (kid : Nat) (h : kid ∉ ms.map Prod.fst) :
    (ms.foldl (fun s p => clearCacheHitRecordsForKey (hsetWeights s p.1 w w) p.1)
        s0).keyHashes kid = s0.keyHashes kid := by
  induction ms generalizing s0 with
  | nil => rfl
  | cons m rest ih =>
    simp only [List.map_cons, List.mem_cons, not_or] at h
    simp only [List.foldl_cons]
    rw [ih _ h.2]
    simp [clearCacheHitRecordsForKey, hsetWeights, setKeyHash, h.1]

lemma foldStep_sets_weights (w : Int) (ms : List (Nat × DBKey))
    (s0 : SysState) (kid : Nat) (hmem : kid ∈ ms.map Prod.fst)
    (hnd : (ms.map Prod.fst).Nodup) :
    storeBaseWeightOf (ms.foldl (fun s p =>
        clearCacheHitRecordsForKey (hsetWeights s p.1 w w) p.1) s0) kid = some w ∧
    storeWeightOf (ms.foldl (fun s p =>
        clearCacheHitRecordsForKey (hsetWeights s p.1 w w) p.1) s0) kid = some w := by
  induction ms generalizing s0 with
  | nil => simp at hmem
  | cons m rest ih =>
    simp only [List.map_cons, List.nodup_cons] at hnd
    simp only [List.foldl_cons]
    by_cases hid : kid = m.1
    · have hkh := foldStep_keyHashes_not_mem w rest
        (clearCacheHitRecordsForKey (hsetWeights s0 m.1 w w) m.1) kid
        (by rw [hid]; exact hnd.1)
      constructor
      · rw [storeBaseWeightOf, hkh]
        simp [clearCacheHitRecordsForKey, hsetWeights, setKeyHash, hid]
      · rw [storeWeightOf, hkh]
        simp [clearCacheHitRecordsForKey, hsetWeights, setKeyHash, hid]
    · have hmem2 : kid ∈ rest.map Prod.fst := by
        simp only [List.map_cons, List.mem_cons] at hmem
        exact hmem.resolve_left hid
      exact ih _ hmem2 hnd.2

lemma foldStep_cacheHit_cleared (w : Int) (ms : List (Nat × DBKey)) :
    ∀ (s0 : SysState) (pr : (Nat × List Char) × CacheHitEntry),
      pr ∈ (ms.foldl (fun s p =>
          clearCacheHitRecordsForKey (hsetWeights s p.1 w w) p.1) s0).cacheHit →
      pr ∈ s0.cacheHit ∧ ∀ m ∈ ms, pr.2.keyID ≠ m.1 := by
  induction ms with
  | nil => intro s0 pr h; exact ⟨h, by simp⟩
  | cons m rest ih =>
    intro s0 pr h
    simp only [List.foldl_cons] at h
    obtain ⟨h1, h2⟩ := ih _ pr h
    have h3 : pr ∈ s0.cacheHit.filter (fun e => !(e.2.keyID == m.1)) := by
      simpa [clearCacheHitRecordsForKey, hsetWeights, setKeyHash] using h1
    have h4 := List.mem_filter.mp h3
    refine ⟨h4.1, ?_⟩
    intro m2 hm2
    rcases List.mem_cons.mp hm2 with rfl | hm2
    · have := h4.2
      simp at this
      exact this
    · exact h2 m2 hm2

lemma dbLookup_map_keyed (db : List (Nat × DBKey)) (kid : Nat) (dbk2 : DBKey)
    (f : Nat × DBKey → Nat × DBKey) (hf : ∀ p, (f p).1 = p.1)
    (hnd : (db.map Prod.fst).Nodup) (hmem : (kid, dbk2) ∈ db) :
    dbLookup (db.map f) kid = some (f (kid, dbk2)).2 := by
  induction db with
  | nil => simp at hmem
  | cons p rest ih =>
    simp only [List.map_cons, List.nodup_cons] at hnd
    by_cases hp : p.1 = kid
    · have hpe : p = (kid, dbk2) := by
        rcases List.mem_cons.mp hmem with h | h
        · exact h.symm
        · exact absurd (by simpa [hp] using List.mem_map_of_mem Prod.fst h) hnd.1
      rw [hpe]
      unfold dbLookup
      rw [List.map_cons, List.find?_cons_of_pos]
      · rfl
      · simp [hf]
    · have hmem2 : (kid, dbk2) ∈ rest := by
        rcases List.mem_cons.mp hmem with h | h
        · exact absurd (congrArg Prod.fst h.symm) hp
        · exact h
      unfold dbLookup
      rw [List.map_cons, List.find?_cons_of_neg]
      · exact ih hnd.2 hmem2
      · simp [hf, hp]

lemma foldStep_db (w : Int) (ms : List (Nat × DBKey)) (s0 : SysState) :
    (ms.foldl (fun s p => clearCacheHitRecordsForKey (hsetWeights s p.1 w w) p.1)
        s0).db = s0.db := by
  induction ms generalizing s0 with
  | nil => rfl
  | cons m rest ih =>
    simp only [List.foldl_cons]
    rw [ih]
    rfl

/-- C3: each weight-administering operation leaves the affected keys with
`base_weight = weight = w` in the durable DB row and in the hot-cache hash,
and purges every cache-hit entry referring to them.  For `reset_weight` the
target is the key's own base weight `b`; its DB row and hot-cache hash are
assumed to agree on `b ≥ 1` (the operation writes only the `weight` field, so
on a key whose stored base weight is not positive the DB `base_weight` column
would stay behind — see the reset and invariant analysis).  The group-wide
operations assume DB ids are unique (the primary key). -/
theorem weight_admin_ops (sys : SysState) (keyID g : Nat) (w : Int)
    (hashes : List (List Char)) (dbk : DBKey) :
    (1 ≤ w → w ≤ 1000 → dbLookup sys.db keyID = some dbk →
      ∃ sys2, UpdateKeyWeight sys keyID w = some sys2 ∧
        (dbLookup sys2.db keyID).map DBKey.base_weight = some w ∧
        (dbLookup sys2.db keyID).map DBKey.weight = some w ∧
        storeBaseWeightOf sys2 keyID = some w ∧
        storeWeightOf sys2 keyID = some w ∧
        ∀ pr ∈ sys2.cacheHit, pr.2.keyID ≠ keyID) ∧
    (1 ≤ w → w ≤ 1000 → (sys.db.map Prod.fst).Nodup →
      ∃ sys2, UpdateKeysWeight sys g hashes w = some sys2 ∧
        ∀ kid dbk2, (kid, dbk2) ∈ sys.db → dbk2.group_id = g →
          dbk2.key_hash ∈ hashes →
          (dbLookup sys2.db kid).map DBKey.base_weight = some w ∧
          (dbLookup sys2.db kid).map DBKey.weight = some w ∧
          storeBaseWeightOf sys2 kid = some w ∧
          storeWeightOf sys2 kid = some w ∧
          ∀ pr ∈ sys2.cacheHit, pr.2.keyID ≠ kid) ∧
    ((sys.db.map Prod.fst).Nodup →
      ∀ kid dbk2, (kid, dbk2) ∈ sys.db → dbk2.group_id = g →
        (dbLookup (ResetKeysWeight sys g).db kid).map DBKey.base_weight = some 500 ∧
        (dbLookup (ResetKeysWeight sys g).db kid).map DBKey.weight = some 500 ∧
        storeBaseWeightOf (ResetKeysWeight sys g) kid = some 500 ∧
        storeWeightOf (ResetKeysWeight sys g) kid = some 500 ∧
        ∀ pr ∈ (ResetKeysWeight sys g).cacheHit, pr.2.keyID ≠ kid) ∧
    (∀ b : Int, dbLookup sys.db keyID = some dbk → dbk.base_weight = b → 1 ≤ b →
      storeBaseWeightOf sys keyID = some b →
      ∃ sys2, ResetSingleKeyWeight sys keyID = some sys2 ∧
        (dbLookup sys2.db keyID).map DBKey.base_weight = some b ∧
        (dbLookup sys2.db keyID).map DBKey.weight = some b ∧
        storeBaseWeightOf sys2 keyID = some b ∧
        storeWeightOf sys2 keyID = some b ∧
        ∀ pr ∈ sys2.cacheHit, pr.2.keyID ≠ keyID) := by
  refine ⟨?_, ?_, ?_, ?_⟩
  · -- UpdateKeyWeight
    intro hw1 hw2 hdb
    have hval : ¬(w < 1 ∨ w > 1000) := by omega
    refine ⟨_, by unfold UpdateKeyWeight; rw [if_neg hval, hdb], ?_, ?_, ?_, ?_, ?_⟩
    · simp only [clearCacheHitRecordsForKey, hsetWeights, setKeyHash]
      rw [dbLookup_dbUpdateById, hdb]
      rfl
    · simp only [clearCacheHitRecordsForKey, hsetWeights, setKeyHash]
      rw [dbLookup_dbUpdateById, hdb]
      rfl
    · simp [storeBaseWeightOf, clearCacheHitRecordsForKey, hsetWeights, setKeyHash]
    · simp [storeWeightOf, clearCacheHitRecordsForKey, hsetWeights, setKeyHash]
    · intro pr hpr
      have h2 : pr ∈ sys.cacheHit ∧ ¬pr.2.keyID = keyID := by
        simpa [clearCacheHitRecordsForKey, hsetWeights, setKeyHash] using hpr
      exact h2.2
  · -- UpdateKeysWeight
    intro hw1 hw2 hnd
    have hval : ¬(w < 1 ∨ w > 1000) := by omega
    by_cases hlen : (sys.db.filter (matchesHashes g hashes)).length = 0
    · refine ⟨sys, by unfold UpdateKeysWeight; rw [if_neg hval, if_pos hlen], ?_⟩
      intro kid dbk2 hmem hg hh
      exfalso
      have hmatch : matchesHashes g hashes (kid, dbk2) = true := by
        simp only [matchesHashes, Bool.and_eq_true, beq_iff_eq, List.any_eq_true]
        exact ⟨hg, dbk2.key_hash, hh, by simp⟩
      have : (kid, dbk2) ∈ sys.db.filter (matchesHashes g hashes) :=
        List.mem_filter.mpr ⟨hmem, hmatch⟩
      rw [List.length_eq_zero.mp hlen] at this
      simp at this
    · refine ⟨_, by unfold UpdateKeysWeight; rw [if_neg hval, if_neg hlen], ?_⟩
      intro kid dbk2 hmem hg hh
      have hmatch : matchesHashes g hashes (kid, dbk2) = true := by
        simp only [matchesHashes, Bool.and_eq_true, beq_iff_eq, List.any_eq_true]
        exact ⟨hg, dbk2.key_hash, hh, by simp⟩
      have hmemf : (kid, dbk2) ∈ sys.db.filter (matchesHashes g hashes) :=
        List.mem_filter.mpr ⟨hmem, hmatch⟩
      have hmemf1 : kid ∈ (sys.db.filter (matchesHashes g hashes)).map Prod.fst :=
        List.mem_map_of_mem Prod.fst hmemf
      have hndm : ((sys.db.filter (matchesHashes g hashes)).map Prod.fst).Nodup :=
        hnd.sublist ((sys.db.filter_sublist).map Prod.fst)
      have hdbeq := foldStep_db w (sys.db.filter (matchesHashes g hashes))
        { sys with db := sys.db.map (fun p =>
            if matchesHashes g hashes p then
              (p.1, { p.2 with base_weight := w, weight := w })
            else p) }
      have hsw := foldStep_sets_weights w (sys.db.filter (matchesHashes g hashes))
        { sys with db := sys.db.map (fun p =>
            if matchesHashes g hashes p then
              (p.1, { p.2 with base_weight := w, weight := w })
            else p) } kid hmemf1 hndm
      have hdb2 := dbLookup_map_keyed sys.db kid dbk2
        (fun p => if matchesHashes g hashes p then
            (p.1, { p.2 with base_weight := w, weight := w })
          else p)
        (by intro p; by_cases hm : matchesHashes g hashes p <;> simp [hm])
        hnd hmem
      simp only [hmatch, if_true] at hdb2
      refine ⟨?_, ?_, hsw.1, hsw.2, ?_⟩
      · rw [hdbeq, hdb2]; rfl
      · rw [hdbeq, hdb2]; rfl
      · intro pr hpr
        have := (foldStep_cacheHit_cleared w _ _ pr hpr).2 (kid, dbk2) hmemf
        exact this
  · -- ResetKeysWeight
    intro hnd kid dbk2 hmem hg
    have hmatch : (dbk2.group_id == g) = true := by simp [hg]
    have hmemf : (kid, dbk2) ∈ sys.db.filter (fun p => p.2.group_id == g) :=
      List.mem_filter.mpr ⟨hmem, hmatch⟩
    have hmemf1 : kid ∈ (sys.db.filter (fun p => p.2.group_id == g)).map Prod.fst :=
      List.mem_map_of_mem Prod.fst hmemf
    have hndm : ((sys.db.filter (fun p => p.2.group_id == g)).map Prod.fst).Nodup :=
      hnd.sublist ((sys.db.filter_sublist).map Prod.fst)
    have hdbeq := foldStep_db 500 (sys.db.filter (fun p => p.2.group_id == g))
      { sys with db := sys.db.map (fun p =>
          if p.2.group_id == g then
            (p.1, { p.2 with base_weight := 500, weight := 500 })
          else p) }
    have hsw := foldStep_sets_weights 500 (sys.db.filter (fun p => p.2.group_id == g))
      { sys with db := sys.db.map (fun p =>
          if p.2.group_id == g then
            (p.1, { p.2 with base_weight := 500, weight := 500 })
          else p) } kid hmemf1 hndm
    have hdb2 := dbLookup_map_keyed sys.db kid dbk2
      (fun p => if p.2.group_id == g then
          (p.1, { p.2 with base_weight := 500, weight := 500 })
        else p)
      (by intro p; by_cases hm : (p.2.group_id == g) = true <;> simp [hm])
      hnd hmem
    simp only [hmatch, if_true] at hdb2
    refine ⟨?_, ?_, ?_, ?_, ?_⟩
    · show (dbLookup (ResetKeysWeight sys g).db kid).map DBKey.base_weight = some 500
      unfold ResetKeysWeight
      rw [hdbeq, hdb2]
      rfl
    · show (dbLookup (ResetKeysWeight sys g).db kid).map DBKey.weight = some 500
      unfold ResetKeysWeight
      rw [hdbeq, hdb2]
      rfl
    · exact hsw.1
    · exact hsw.2
    · intro pr hpr
      have hpr2 : pr ∈ ((sys.db.filter (fun p => p.2.group_id == g)).foldl
          (fun s p => clearCacheHitRecordsForKey (hsetWeights s p.1 500 500) p.1)
          { sys with db := sys.db.map (fun p =>
              if p.2.group_id == g then
                (p.1, { p.2 with base_weight := 500, weight := 500 })
              else p) }).cacheHit := hpr
      exact (foldStep_cacheHit_cleared 500 _ _ pr hpr2).2 (kid, dbk2) hmemf
  · -- ResetSingleKeyWeight
    intro b hdb hb hb1 hsb
    obtain ⟨kh0, hkh0, hkb⟩ : ∃ kh0, sys.keyHashes keyID = some kh0 ∧
        kh0.base_weight = some b := by
      cases hkh : sys.keyHashes keyID with
      | none => rw [storeBaseWeightOf, hkh] at hsb; simp at hsb
      | some kh0 =>
        rw [storeBaseWeightOf, hkh] at hsb
        exact ⟨kh0, rfl, hsb⟩
    have hbw : (if dbk.base_weight ≤ 0 then (500 : Int) else dbk.base_weight) = b := by
      rw [hb, if_neg (by omega)]
    refine ⟨clearCacheHitRecordsForKey
        (hsetWeightOnly
          { sys with
            db := dbUpdateById sys.db keyID (fun kk => { kk with weight := b }) }
          keyID b)
        keyID, ?_, ?_, ?_, ?_, ?_, ?_⟩
    · unfold ResetSingleKeyWeight
      simp only [hdb, hbw]
    · simp only [clearCacheHitRecordsForKey, hsetWeightOnly, setKeyHash]
      rw [dbLookup_dbUpdateById, hdb]
      simp [hb]
    · simp only [clearCacheHitRecordsForKey, hsetWeightOnly, setKeyHash]
      rw [dbLookup_dbUpdateById, hdb]
      rfl
    · simp [storeBaseWeightOf, clearCacheHitRecordsForKey, hsetWeightOnly,
        setKeyHash, hkh0, hkb]
    · simp [storeWeightOf, clearCacheHitRecordsForKey, hsetWeightOnly, setKeyHash]
    · intro pr hpr
      have h2 : pr ∈ sys.cacheHit ∧ ¬pr.2.keyID = keyID := by
        simpa [clearCacheHitRecordsForKey, hsetWeightOnly, setKeyHash] using hpr
      exact h2.2

theorem weight_admin_ops_witness :
    storeBaseWeightOf ((UpdateKeyWeight wSysW 5 700).getD wSysW) 5 = some 700 ∧
    storeWeightOf ((UpdateKeyWeight wSysW 5 700).getD wSysW) 5 = some 700 ∧
    (dbLookup ((UpdateKeyWeight wSysW 5 700).getD wSysW).db 5).map DBKey.base_weight
        = some 700 ∧
    (∀ pr ∈ ((UpdateKeyWeight wSysW 5 700).getD wSysW).cacheHit, pr.2.keyID ≠ 5) ∧
    storeWeightOf ((ResetSingleKeyWeight wSysW 5).getD wSysW) 5 = some 300 := by
  obtain ⟨sys2, he, hd1, hd2, hs1, hs2, hp⟩ :=
    (weight_admin_ops wSysW 5 2 700 [] ⟨2, "kh5".data, "active", 300, 200, 0⟩).1
      (by decide) (by decide) (by decide)
  obtain ⟨sys3, he3, _, _, _, hs3, _⟩ :=
    (weight_admin_ops wSysW 5 2 700 [] ⟨2, "kh5".data, "active", 300, 200, 0⟩).2.2.2
      300 (by decide) (by decide) (by decide) (by decide)
  rw [he, he3]
  exact ⟨hs1, hs2, hd1, hp, hs3⟩

lemma collectLoop_spec (sys : SysState) (first : Nat) :
    ∀ (t junk : List Nat),
      (collectLoop sys first t.length (t ++ first :: junk)).1 =
        (t.takeWhile (fun x => x ≠ first)).map
          (fun kid => (kid, readWeight sys kid)) := by
  intro t
  induction t with
  | nil => intro junk; rfl
  | cons x t2 ih =>
    intro junk
    simp only [List.length_cons, List.cons_append]
    by_cases hx : x = first
    · simp [collectLoop, rotateL, hx, List.takeWhile]
    · have hassoc : (t2 ++ first :: junk) ++ [x] = t2 ++ first :: (junk ++ [x]) := by
        simp
      simp only [collectLoop, rotateL, hassoc]
      rw [if_neg hx]
      simp only [ih (junk ++ [x])]
      simp [List.takeWhile, hx]

lemma pickLoop_firstCross :
    ∀ (pairs : List (Nat × Int)) (r cum : Int) (sel : Nat),
      0 ≤ r - cum → r - cum < (pairs.map Prod.snd).sum →
      ∃ kid, firstCross pairs (r - cum) = some kid ∧
        pickLoop r pairs cum sel = kid := by
  intro pairs
  induction pairs with
  | nil => intro r cum sel h1 h2; simp at h2; omega
  | cons p rest ih =>
    intro r cum sel h1 h2
    obtain ⟨kid, w⟩ := p
    by_cases hcase : r < cum + w
    · refine ⟨kid, ?_, ?_⟩
      · simp only [firstCross]
        rw [if_pos (by omega)]
      · simp only [pickLoop]
        rw [if_pos hcase]
    · have hsum : (rest.map Prod.snd).sum > r - cum - w := by
        simp only [List.map_cons, List.sum_cons] at h2
        omega
      obtain ⟨kid2, hfc, hpl⟩ := ih r (cum + w) sel (by omega) (by
        have : r - (cum + w) = r - cum - w := by omega
        omega)
      refine ⟨kid2, ?_, ?_⟩
      · simp only [firstCross]
        rw [if_neg (by omega)]
        have : r - cum - w = r - (cum + w) := by omega
        rw [this]
        exact hfc
      · simp only [pickLoop]
        rw [if_neg hcase]
        exact hpl

/-- C4: selection returns `ErrNoActiveKeys` on an empty active list; rotates
once and returns the single key when the list is a singleton; and otherwise
collects the rotated head followed by the tail up to the head's reappearance,
pairing each id with its read weight (floored to at least 1, with 500
substituted when the field is missing), and returns the first id whose
cumulative weight strictly exceeds the uniform draw `r ∈ [0, total)`. -/
theorem selectKey_algorithm (sys : SysState) (g : Nat) (r : Int) :
    (sys.activeKeys g = [] → SelectKey sys g r = none) ∧
    (∀ k, sys.activeKeys g = [k] →
      SelectKey sys g r = some (k, setActiveList sys g [k])) ∧
    (2 ≤ (sys.activeKeys g).length → 0 ≤ r →
      r < ((pairsSpec sys (collectSpec (sys.activeKeys g))).map Prod.snd).sum →
      ∃ kid sys2,
        firstCross (pairsSpec sys (collectSpec (sys.activeKeys g))) r = some kid ∧
        SelectKey sys g r = some (kid, sys2)) ∧
    (∀ kid, 1 ≤ readWeight sys kid) ∧
    (∀ kid, (sys.keyHashes kid).bind StoreKeyHash.weight = none →
      readWeight sys kid = 500) := by
  refine ⟨?_, ?_, ?_, ?_, ?_⟩
  · intro h
    unfold SelectKey
    rw [h]
    rfl
  · intro k h
    unfold SelectKey
    rw [h]
    simp [rotateL]
  · intro hlen hr0 hrs
    obtain ⟨h, t, hht, hne⟩ : ∃ h t, sys.activeKeys g = h :: t ∧ t ≠ [] := by
      cases hl : sys.activeKeys g with
      | nil => rw [hl] at hlen; simp at hlen
      | cons h t =>
        cases t with
        | nil => rw [hl] at hlen; simp at hlen
        | cons x t2 => exact ⟨h, x :: t2, rfl, by simp⟩
    rw [hht] at hrs ⊢
    have hcoll := collectLoop_spec sys h t []
    have hpairs : (h, readWeight sys h) ::
        (collectLoop sys h t.length (t ++ [h])).1 =
        pairsSpec sys (collectSpec (h :: t)) := by
      rw [collectSpec, pairsSpec, List.map_cons]
      congr 1
    have hsum0 :
        ((pairsSpec sys (collectSpec (h :: t))).map Prod.snd).sum ≠ 0 := by
      omega
    refine ⟨(pickLoop r (pairsSpec sys (collectSpec (h :: t))) 0 h),
      setActiveList sys g (collectLoop sys h ((h :: t).length - 1) (t ++ [h])).2,
      ?_, ?_⟩
    · obtain ⟨kid, hfc, hpl⟩ := pickLoop_firstCross
        (pairsSpec sys (collectSpec (h :: t))) r 0 h (by omega) (by
          rw [sub_zero]
          exact hrs)
      rw [sub_zero] at hfc
      rw [hpl]
      exact hfc
    · unfold SelectKey
      rw [hht]
      have hlen0 : ¬(h :: t).length = 0 := by simp
      have hlen1 : ¬(h :: t).length = 1 := by
        cases t with
        | nil => exact absurd rfl hne
        | cons x t2 => simp
      rw [if_neg hlen0, if_neg hlen1]
      simp only [rotateL, List.length_cons, Nat.add_sub_cancel]
      rw [show t ++ [h] = t ++ h :: [] from rfl] at hpairs
      simp only [hpairs, hsum0]
      simp
  · intro kid
    simp only [readWeight]
    by_cases hw : ((sys.keyHashes kid).bind StoreKeyHash.weight).getD 0 ≤ 0
    · rw [if_pos hw]
      norm_num
    · rw [if_neg hw]
      omega
  · intro kid hmiss
    simp [readWeight, hmiss]

theorem selectKey_algorithm_witness :
    (SelectKey wSysSel 1 150).map Prod.fst = some 2 ∧
    firstCross (pairsSpec wSysSel (collectSpec (wSysSel.activeKeys 1))) 150 = some 2 := by
  obtain ⟨kid, sys2, hfc, hsel⟩ :=
    (selectKey_algorithm wSysSel 1 150).2.2.1 (by decide) (by decide) (by decide)
  have hfc2 : firstCross (pairsSpec wSysSel (collectSpec (wSysSel.activeKeys 1))) 150
      = some 2 := by decide
  have hkid : kid = 2 := by
    have := hfc.symm.trans hfc2
    exact Option.some.inj this
  rw [hsel, hkid]
  exact ⟨rfl, hfc2⟩

lemma hexEncode_take : ∀ (l : List Nat) (n : Nat),
    hexEncode (l.take n) = (hexEncode l).take (2 * n) := by
  intro l
  induction l with
  | nil => intro n; simp [hexEncode]
  | cons b rest ih =>
    intro n
    cases n with
    | zero => simp [hexEncode]
    | succ n2 =>
      simp only [List.take_succ_cons, hexEncode]
      rw [show 2 * (n2 + 1) = (2 * n2 + 1) + 1 by ring]
      simp only [List.take_succ_cons]
      rw [ih n2]

lemma hexEncode_length : ∀ l : List Nat, (hexEncode l).length = 2 * l.length := by
  intro l
  induction l with
  | nil => rfl
  | cons b rest ih =>
    simp only [hexEncode, List.length_cons, ih]
    ring

/-- C7: the prompt hash equals the 32-character truncation of the hex SHA-256
of the JSON serialization of the cache_control-stripped message prefix (for
every 32-byte digest function), it is empty exactly when `drop_count` reaches
the number of messages (equivalently, when the remaining prefix is empty), and
it has 32 hex characters otherwise.  The embedding is a pure function on a
copy of the messages, matching the code's non-mutating strip. -/
theorem calculatePromptHash_spec (sha : List Char → List Nat)
    (hsha : ∀ s, (sha s).length = 32) (messages : List Json) (dropCount : Nat) :
    CalculatePromptHash sha messages dropCount =
      promptHashSpec sha messages dropCount ∧
    (CalculatePromptHash sha messages dropCount = [] ↔
      (dropCount ≥ messages.length ∨ messages.length - dropCount < 1)) ∧
    (dropCount < messages.length →
      (CalculatePromptHash sha messages dropCount).length = 32) := by
  have hlen : ∀ data : List Char,
      (hexEncode ((sha data).take 16)).length = 32 := by
    intro data
    rw [hexEncode_length, List.length_take, hsha]
    norm_num
  by_cases hcond : dropCount ≥ messages.length ∨ messages.length - dropCount < 1
  · refine ⟨?_, ?_, ?_⟩
    · unfold CalculatePromptHash promptHashSpec
      rw [if_pos hcond, if_pos hcond]
    · unfold CalculatePromptHash
      rw [if_pos hcond]
      simp only [true_iff]
      exact hcond
    · intro hlt
      omega
  · refine ⟨?_, ?_, ?_⟩
    · unfold CalculatePromptHash promptHashSpec
      rw [if_neg hcond, if_neg hcond]
      rw [show (32 : Nat) = 2 * 16 by norm_num, ← hexEncode_take]
    · unfold CalculatePromptHash
      rw [if_neg hcond]
      constructor
      · intro hnil
        have := hlen (Json.render (Json.arr (stripCacheControl
          (messages.take (messages.length - dropCount)))))
        rw [hnil] at this
        simp at this
      · intro hc
        exact absurd hc hcond
    · intro hlt
      unfold CalculatePromptHash
      rw [if_neg hcond]
      exact hlen _

theorem calculatePromptHash_spec_witness :
    (∀ s, (shaZero s).length = 32) ∧
    (CalculatePromptHash shaZero [Json.null, Json.null, Json.null] 2).length = 32 ∧
    CalculatePromptHash shaZero [Json.null, Json.null, Json.null] 3 = [] := by
  have hsha : ∀ s, (shaZero s).length = 32 := by
    intro s
    simp [shaZero]
  refine ⟨hsha, ?_, ?_⟩
  · exact (calculatePromptHash_spec shaZero hsha
      [Json.null, Json.null, Json.null] 2).2.2 (by norm_num)
  · exact (calculatePromptHash_spec shaZero hsha
      [Json.null, Json.null, Json.null] 3).2.1.mpr (by norm_num)

lemma extractMessages_size_of_not_array (body : Option Json)
    (h : hasMessagesArray body = false) :
    (ExtractMessages body).2 = 0 ∨ (ExtractMessages body).2 = 4 := by
  cases body with
  | none => left; rfl
  | some j =>
    cases j with
    | obj fs =>
      cases hm : lookupField fs "messages".data with
      | none => right; simp [ExtractMessages, hm]
      | some v =>
        cases v with
        | arr xs =>
          exfalso
          have : hasMessagesArray (some (Json.obj fs)) = true := by
            simp [hasMessagesArray, hm]
          rw [h] at this
          simp at this
        | null => right; simp [ExtractMessages, hm]
        | bool b => left; simp [ExtractMessages, hm]
        | num n => left; simp [ExtractMessages, hm]
        | str s => left; simp [ExtractMessages, hm]
        | obj fs2 => left; simp [ExtractMessages, hm]
    | null => right; rfl
    | bool b => left; rfl
    | num n => left; rfl
    | str s => left; rfl
    | arr xs => left; rfl

/-- C8: selection with affinity coincides with plain selection whenever any
precondition fails: affinity disabled, no parseable `messages` JSON array in
the body, serialized messages not strictly larger than 4096 bytes, or fewer
than 3 messages. -/
theorem selectWithCacheHit_fallback (sha : List Char → List Nat)
    (sys : SysState) (g : Nat) (body : Option Json) (enable : Bool)
    (r now : Int) :
    (enable = false →
      SelectKeyWithCacheHit sha sys g body enable r now = SelectKey sys g r) ∧
    (hasMessagesArray body = false →
      SelectKeyWithCacheHit sha sys g body enable r now = SelectKey sys g r) ∧
    ((ExtractMessages body).2 ≤ 4096 →
      SelectKeyWithCacheHit sha sys g body enable r now = SelectKey sys g r) ∧
    ((ExtractMessages body).1.length < 3 →
      SelectKeyWithCacheHit sha sys g body enable r now = SelectKey sys g r) := by
  have hsize : ∀ hs : (ExtractMessages body).2 ≤ 4096,
      SelectKeyWithCacheHit sha sys g body enable r now = SelectKey sys g r := by
    intro hs
    cases enable with
    | false => rfl
    | true =>
      unfold SelectKeyWithCacheHit
      rw [if_neg (by simp)]
      rw [if_pos (Or.inl hs)]
  have hcount : ∀ hc : (ExtractMessages body).1.length < 3,
      SelectKeyWithCacheHit sha sys g body enable r now = SelectKey sys g r := by
    intro hc
    cases enable with
    | false => rfl
    | true =>
      unfold SelectKeyWithCacheHit
      rw [if_neg (by simp)]
      rw [if_pos (Or.inr hc)]
  refine ⟨?_, ?_, hsize, hcount⟩
  · intro he
    rw [he]
    rfl
  · intro hmsg
    rcases extractMessages_size_of_not_array body hmsg with h0 | h4
    · exact hsize (by omega)
    · exact hsize (by omega)

theorem selectWithCacheHit_fallback_witness :
    SelectKeyWithCacheHit shaZero wSysSel 1 none true 150 0 =
      SelectKey wSysSel 1 150 := by
  exact (selectWithCacheHit_fallback shaZero wSysSel 1 none true 150 0).2.1
    (by decide)

lemma promptHash_ne_nil (sha : List Char → List Nat)
    (hsha : ∀ s, (sha s).length = 32) (messages : List Json) (dropCount : Nat)
    (hlt : dropCount < messages.length) :
    CalculatePromptHash sha messages dropCount ≠ [] := by
  unfold CalculatePromptHash
  rw [if_neg (by omega)]
  intro hnil
  have hL : (hexEncode ((sha (Json.render (Json.arr (stripCacheControl
      (messages.take (messages.length - dropCount)))))).take 16)).length = 32 := by
    rw [hexEncode_length, List.length_take, hsha]
    norm_num
  rw [hnil] at hL
  simp at hL

lemma cacheHitLookup_set (sys : SysState) (g : Nat) (h : List Char)
    (kid : Nat) (now : Int) :
    cacheHitLookup (setCacheHitEntry sys g h kid now) g h = some ⟨kid, now + 600⟩ := by
  unfold cacheHitLookup setCacheHitEntry
  rw [List.find?_cons_of_pos _ (by simp)]
  rfl

lemma cacheHitLookup_adjust (sys : SysState) (kid : Nat) (delta : Int)
    (g : Nat) (h : List Char) :
    cacheHitLookup (AdjustKeyWeight sys kid delta) g h = cacheHitLookup sys g h := rfl

lemma cacheHitLookup_delete (sys : SysState) (g : Nat) (h : List Char) :
    cacheHitLookup (cacheHitDelete sys g h) g h = none := by
  unfold cacheHitLookup cacheHitDelete
  rw [List.find?_eq_none.mpr]
  · rfl
  · intro e he
    have := (List.mem_filter.mp he).2
    simp at this ⊢
    tauto

lemma keyStatus_cacheHitDelete (sys : SysState) (g : Nat) (h : List Char)
    (kid : Nat) : keyStatus (cacheHitDelete sys g h) kid = keyStatus sys kid := rfl

lemma cacheHitProbe_cons (sha : List Char → List Nat) (g : Nat)
    (messages : List Json) (r now : Int) (d : Nat) (ds : List Nat)
    (sys : SysState) :
    cacheHitProbe sha g messages r now (d :: ds) sys =
      (let h := CalculatePromptHash sha messages d
       if h = [] then cacheHitProbe sha g messages r now ds sys
       else
         match cacheHitLookup sys g h with
         | none => cacheHitProbe sha g messages r now ds sys
         | some e =>
           if keyStatus sys e.keyID ≠ "active" then
             cacheHitProbe sha g messages r now ds
               (AdjustKeyWeight (cacheHitDelete sys g h) e.keyID 1)
           else
             let newHash := CalculatePromptHash sha messages 2
             let sys1 :=
               if newHash ≠ [] ∧ newHash ≠ h then
                 AdjustKeyWeight (setCacheHitEntry sys g newHash e.keyID now)
                   e.keyID (-1)
               else sys
             some (e.keyID, sys1)) := rfl

lemma cacheHitProbe_nil (sha : List Char → List Nat) (g : Nat)
    (messages : List Json) (r now : Int) (sys : SysState) :
    cacheHitProbe sha g messages r now [] sys =
      (match SelectKey sys g r with
       | none => none
       | some (k, sys1) =>
         let newHash := CalculatePromptHash sha messages 2
         if newHash ≠ [] then
           some (k, AdjustKeyWeight (setCacheHitEntry sys1 g newHash k now) k (-1))
         else some (k, sys1)) := rfl

lemma affinity_guard (sha : List Char → List Nat) (sys : SysState) (g : Nat)
    (body : Option Json) (msgs : List Json) (size : Nat) (r now : Int)
    (hEM : ExtractMessages body = (msgs, size)) (hsize : 4096 < size)
    (hcount : 3 ≤ msgs.length) :
    SelectKeyWithCacheHit sha sys g body true r now =
      cacheHitProbe sha g msgs r now [2, 4, 6] sys := by
  unfold SelectKeyWithCacheHit
  rw [if_neg (by simp)]
  simp only [hEM]
  rw [if_neg (by
    intro hcon
    rcases hcon with hc | hc
    · exact absurd hc (by simp; omega)
    · exact absurd hc (by simp; omega))]

lemma promptHash_congr (sha : List Char → List Nat) (msgs msgs2 : List Json)
    (h1 : 3 ≤ msgs.length) (h2 : 3 ≤ msgs2.length)
    (hstrip : stripCacheControl (msgs.take (msgs.length - 2)) =
      stripCacheControl (msgs2.take (msgs2.length - 2))) :
    CalculatePromptHash sha msgs 2 = CalculatePromptHash sha msgs2 2 := by
  unfold CalculatePromptHash
  rw [if_neg (by omega), if_neg (by omega)]
  simp only [hstrip]

lemma affinity_hit_active (sha : List Char → List Nat)
    (hsha : ∀ s, (sha s).length = 32) (sys : SysState) (g : Nat)
    (body : Option Json) (msgs : List Json) (size : Nat) (r now : Int)
    (e : CacheHitEntry) (hEM : ExtractMessages body = (msgs, size))
    (hsize : 4096 < size) (hcount : 3 ≤ msgs.length)
    (hlook : cacheHitLookup sys g (CalculatePromptHash sha msgs 2) = some e)
    (hact : keyStatus sys e.keyID = "active") :
    SelectKeyWithCacheHit sha sys g body true r now = some (e.keyID, sys) := by
  have h2ne : CalculatePromptHash sha msgs 2 ≠ [] :=
    promptHash_ne_nil sha hsha msgs 2 (by omega)
  rw [affinity_guard sha sys g body msgs size r now hEM hsize hcount]
  rw [cacheHitProbe_cons]
  simp only []
  rw [if_neg h2ne]
  simp only [hlook]
  rw [if_neg (by simp [hact])]
  rw [if_neg (by simp)]

lemma storeWeightOf_hsetWeightOnly (s : SysState) (kid : Nat) (v : Int) :
    storeWeightOf (hsetWeightOnly s kid v) kid = some v := by
  simp [storeWeightOf, hsetWeightOnly, setKeyHash]

/-- C9: under the affinity preconditions the probe order is drop 2, 4, 6.  A
drop-2 entry referencing a still-active key is returned with the state
untouched, so two requests whose first `n-2` messages agree after
cache_control stripping (equal drop-2 hashes) route to the same key while the
entry is present (within TTL) and the key active; an entry whose key is no
longer active is deleted, the key's weight adjusted by +1 (clamped to the
base weight), and the search continues with the remaining drop counts; on a
total miss normal selection runs and the drop-2 hash is registered with a
10-minute expiry against the chosen key. -/
theorem selectWithCacheHit_affinity (sha : List Char → List Nat)
    (hsha : ∀ s, (sha s).length = 32) (sys : SysState) (g : Nat)
    (body : Option Json) (msgs : List Json) (size : Nat) (r now : Int)
    (hEM : ExtractMessages body = (msgs, size)) (hsize : 4096 < size)
    (hcount : 3 ≤ msgs.length) :
    SelectKeyWithCacheHit sha sys g body true r now =
      cacheHitProbe sha g msgs r now [2, 4, 6] sys ∧
    (∀ e : CacheHitEntry,
      cacheHitLookup sys g (CalculatePromptHash sha msgs 2) = some e →
      keyStatus sys e.keyID = "active" →
      SelectKeyWithCacheHit sha sys g body true r now = some (e.keyID, sys)) ∧
    (∀ body2 msgs2 size2 r2 now2 (e : CacheHitEntry),
      ExtractMessages body2 = (msgs2, size2) → 4096 < size2 →
      3 ≤ msgs2.length →
      stripCacheControl (msgs.take (msgs.length - 2)) =
        stripCacheControl (msgs2.take (msgs2.length - 2)) →
      cacheHitLookup sys g (CalculatePromptHash sha msgs 2) = some e →
      keyStatus sys e.keyID = "active" →
      SelectKeyWithCacheHit sha sys g body true r now = some (e.keyID, sys) ∧
      SelectKeyWithCacheHit sha sys g body2 true r2 now2 = some (e.keyID, sys)) ∧
    (∀ e : CacheHitEntry,
      cacheHitLookup sys g (CalculatePromptHash sha msgs 2) = some e →
      keyStatus sys e.keyID ≠ "active" →
      SelectKeyWithCacheHit sha sys g body true r now =
        cacheHitProbe sha g msgs r now [4, 6]
          (AdjustKeyWeight
            (cacheHitDelete sys g (CalculatePromptHash sha msgs 2)) e.keyID 1) ∧
      cacheHitLookup
          (AdjustKeyWeight
            (cacheHitDelete sys g (CalculatePromptHash sha msgs 2)) e.keyID 1)
          g (CalculatePromptHash sha msgs 2) = none ∧
      (∀ kh0 w b, sys.keyHashes e.keyID = some kh0 → kh0.weight = some w →
        kh0.base_weight = some b → 1 ≤ w → 1 ≤ b →
        storeWeightOf
            (AdjustKeyWeight
              (cacheHitDelete sys g (CalculatePromptHash sha msgs 2)) e.keyID 1)
            e.keyID = some (min (w + 1) b))) ∧
    (∀ k sys1,
      (∀ d, cacheHitLookup sys g (CalculatePromptHash sha msgs d) = none) →
      SelectKey sys g r = some (k, sys1) →
      SelectKeyWithCacheHit sha sys g body true r now =
        some (k, AdjustKeyWeight
          (setCacheHitEntry sys1 g (CalculatePromptHash sha msgs 2) k now)
          k (-1)) ∧
      cacheHitLookup
          (AdjustKeyWeight
            (setCacheHitEntry sys1 g (CalculatePromptHash sha msgs 2) k now)
            k (-1)) g (CalculatePromptHash sha msgs 2) = some ⟨k, now + 600⟩) := by
  have h2ne : CalculatePromptHash sha msgs 2 ≠ [] :=
    promptHash_ne_nil sha hsha msgs 2 (by omega)
  have hguard := affinity_guard sha sys g body msgs size r now hEM hsize hcount
  refine ⟨hguard, ?_, ?_, ?_, ?_⟩
  · intro e hlook hact
    exact affinity_hit_active sha hsha sys g body msgs size r now e
      hEM hsize hcount hlook hact
  · intro body2 msgs2 size2 r2 now2 e hEM2 hsize2 hcount2 hstrip hlook hact
    refine ⟨affinity_hit_active sha hsha sys g body msgs size r now e
      hEM hsize hcount hlook hact, ?_⟩
    have hhash := promptHash_congr sha msgs msgs2 hcount hcount2 hstrip
    exact affinity_hit_active sha hsha sys g body2 msgs2 size2 r2 now2 e
      hEM2 hsize2 hcount2 (by rw [← hhash]; exact hlook) hact
  · intro e hlook hinact
    refine ⟨?_, ?_, ?_⟩
    · rw [hguard, cacheHitProbe_cons]
      simp only []
      rw [if_neg h2ne]
      simp only [hlook]
      rw [if_pos hinact]
    · rw [cacheHitLookup_adjust]
      exact cacheHitLookup_delete sys g (CalculatePromptHash sha msgs 2)
    · intro kh0 w b hk hw0 hb0 hw1 hb1
      have hdel2 : (cacheHitDelete sys g
          (CalculatePromptHash sha msgs 2)).keyHashes e.keyID = some kh0 := hk
      have hadj : AdjustKeyWeight
          (cacheHitDelete sys g (CalculatePromptHash sha msgs 2)) e.keyID 1 =
          hsetWeightOnly (cacheHitDelete sys g (CalculatePromptHash sha msgs 2))
            e.keyID (min (w + 1) b) := by
        unfold AdjustKeyWeight
        simp only [hdel2, hw0, hb0, Option.some_bind, Option.getD_some]
        rw [if_neg (by omega : ¬ b ≤ 0), if_neg (by omega : ¬ w + 1 < 1)]
        rcases le_or_lt (w + 1) b with hc | hc
        · rw [if_neg (by omega), min_eq_left hc]
        · rw [if_pos (by omega), min_eq_right (by omega : b ≤ w + 1)]
      rw [hadj, storeWeightOf_hsetWeightOnly]
  · intro k sys1 hmiss hsel
    constructor
    · rw [hguard, cacheHitProbe_cons]
      simp only []
      rw [if_neg h2ne]
      simp only [hmiss 2]
      rw [cacheHitProbe_cons]
      simp only []
      have hcont4 : (if CalculatePromptHash sha msgs 4 = [] then
          cacheHitProbe sha g msgs r now [6] sys
        else match cacheHitLookup sys g (CalculatePromptHash sha msgs 4) with
          | none => cacheHitProbe sha g msgs r now [6] sys
          | some e =>
            if keyStatus sys e.keyID ≠ "active" then
              cacheHitProbe sha g msgs r now [6]
                (AdjustKeyWeight
                  (cacheHitDelete sys g (CalculatePromptHash sha msgs 4)) e.keyID 1)
            else
              let newHash := CalculatePromptHash sha msgs 2
              let sys2 :=
                if newHash ≠ [] ∧ newHash ≠ CalculatePromptHash sha msgs 4 then
                  AdjustKeyWeight
                    (setCacheHitEntry sys g newHash e.keyID now) e.keyID (-1)
                else sys
              some (e.keyID, sys2)) =
          cacheHitProbe sha g msgs r now [6] sys := by
        by_cases h4 : CalculatePromptHash sha msgs 4 = []
        · rw [if_pos h4]
        · rw [if_neg h4]
          simp only [hmiss 4]
      rw [hcont4, cacheHitProbe_cons]
      simp only []
      have hcont6 : (if CalculatePromptHash sha msgs 6 = [] then
          cacheHitProbe sha g msgs r now [] sys
        else match cacheHitLookup sys g (CalculatePromptHash sha msgs 6) with
          | none => cacheHitProbe sha g msgs r now [] sys
          | some e =>
            if keyStatus sys e.keyID ≠ "active" then
              cacheHitProbe sha g msgs r now []
                (AdjustKeyWeight
                  (cacheHitDelete sys g (CalculatePromptHash sha msgs 6)) e.keyID 1)
            else
              let newHash := CalculatePromptHash sha msgs 2
              let sys2 :=
                if newHash ≠ [] ∧ newHash ≠ CalculatePromptHash sha msgs 6 then
                  AdjustKeyWeight
                    (setCacheHitEntry sys g newHash e.keyID now) e.keyID (-1)
                else sys
              some (e.keyID, sys2)) =
          cacheHitProbe sha g msgs r now [] sys := by
        by_cases h6 : CalculatePromptHash sha msgs 6 = []
        · rw [if_pos h6]
        · rw [if_neg h6]
          simp only [hmiss 6]
      rw [hcont6, cacheHitProbe_nil]
      simp only [hsel]
      rw [if_pos h2ne]
    · rw [cacheHitLookup_adjust]
      exact cacheHitLookup_set sys1 g (CalculatePromptHash sha msgs 2) k now

lemma escapeChars_replicate_a :
    ∀ n, escapeChars (List.replicate n 'a') = List.replicate n 'a' := by
  intro n
  induction n with
  | zero => rfl
  | succ n2 ih =>
    rw [List.replicate_succ]
    show (List.map escapeChar ('a' :: List.replicate n2 'a')).flatten =
      'a' :: List.replicate n2 'a'
    rw [List.map_cons, List.flatten_cons]
    rw [show escapeChar 'a' = ['a'] from rfl]
    rw [show (List.map escapeChar (List.replicate n2 'a')).flatten =
      escapeChars (List.replicate n2 'a') from rfl]
    rw [ih]
    rfl

lemma bodyBig_size : 4096 < (ExtractMessages bodyBig).2 := by
  show 4096 < (Json.render (Json.arr bigMsgs)).length
  have hb : Json.render (Json.arr bigMsgs) =
      '[' :: (((Json.str (List.replicate 4200 'a')).render ++
        ',' :: (Json.null.render ++ ',' :: Json.null.render)) ++ [']']) := rfl
  have hs : (Json.str (List.replicate 4200 'a')).render =
      '"' :: (escapeChars (List.replicate 4200 'a') ++ ['"']) := rfl
  rw [hb, hs, escapeChars_replicate_a]
  rw [show Json.null.render = ['n', 'u', 'l', 'l'] from rfl]
  simp only [List.length_cons, List.length_append, List.length_replicate,
    List.length_nil]
  norm_num

theorem selectWithCacheHit_affinity_witness :
    SelectKeyWithCacheHit shaZero wSysHit 1 bodyBig true 0 0 = some (9, wSysHit) := by
  have hsha : ∀ s, (shaZero s).length = 32 := by
    intro s
    simp [shaZero]
  have hcount : 3 ≤ (ExtractMessages bodyBig).1.length := by
    show 3 ≤ bigMsgs.length
    rfl
  exact (selectWithCacheHit_affinity shaZero hsha wSysHit 1 bodyBig
      (ExtractMessages bodyBig).1 (ExtractMessages bodyBig).2 0 0 rfl
      bodyBig_size hcount).2.1 ⟨9, 50⟩ (by decide) (by decide)
